import Mathlib

/-!
Shallow embedding of the chartability-analysis pipeline of
`scripts/identify_chartable_patients.py` and `scripts/create_charts.py`.

Conventions of the embedding:

* JSON dictionaries are modelled by structures whose `Option` fields stand
  for "key absent or null" (`none`) versus "key present" (`some _`).
* Timestamps: the Python code stores ISO-8601 strings and parses them with
  `datetime.fromisoformat` (resp. `dateutil.parser.parse`), catching any
  exception and treating the record as timestamp-less.  A raw timestamp
  string is modelled by `TimeLit`: `empty` records whether the string is
  `""` (Python falsiness of strings matters for the `effectiveDateTime or
  issued` chain), and `parse` is the outcome of the parse attempt, in
  seconds since the Unix epoch (`none` = the parser raised).  The claims
  under verification depend only on parse success/failure and on the
  resulting instant, never on the concrete ISO text, so the parser itself
  is not re-implemented.
* A JSON `valueQuantity.value` is modelled by `PyVal`: either a JSON
  number, or a string carrying the outcome of Python's `float` coercion
  (`none` = `float` raises `ValueError`).
* Python `dict` / `collections.defaultdict` / `collections.Counter` are
  modelled by insertion-ordered association lists, exactly mirroring the
  guaranteed insertion-order iteration of Python dicts; `list.sort` /
  `sorted` (guaranteed stable) are modelled by the stable insertion sort
  `pySort` (a stable sort's output under a total preorder is uniquely
  determined, so any stable sort is extensionally Python's).
* HTTP pagination is modelled by the list of bundles the server would
  serve in order: the "next" link exists exactly when further bundles
  remain.  `datetime` objects are always truthy in Python, so the dead
  guard `if pts[0][0] and pts[-1][0]` in the span computation is modelled
  as always satisfied.
-/

/-- Raw timestamp literal: `empty` says whether the string is `""`;
`parse` is the result of the (abstracted) ISO-8601 parse attempt, in
seconds since the Unix epoch. -/
structure TimeLit where
  empty : Bool
  parse : Option Int
deriving DecidableEq, Repr

/-- A JSON value found under the `value` key of a `valueQuantity`:
a number, or a string together with the outcome of Python `float` on it. -/
inductive PyVal where
  | num (q : ℚ)
  | str (floatParse : Option ℚ)
deriving DecidableEq, Repr

/-- FHIR `Quantity` as read by the scripts: optional `value`, `unit`, `code`. -/
structure Quantity where
  value : Option PyVal
  unit : Option String
  code : Option String
deriving DecidableEq, Repr

/-- One element of a `coding` array: optional `code` and `display`. -/
structure Coding where
  code : Option String
  display : Option String
deriving DecidableEq, Repr

/-- A `component` entry: its `code.coding` array and optional `valueQuantity`. -/
structure Component where
  coding : List Coding
  valueQuantity : Option Quantity
deriving DecidableEq, Repr

/-- A `category` entry: its `coding` array and optional `text`. -/
structure Category where
  coding : List Coding
  text : Option String
deriving DecidableEq, Repr

/-- An `Observation` resource, restricted to the fields the scripts read. -/
structure Obs where
  effectiveDateTime : Option TimeLit
  issued : Option TimeLit
  coding : List Coding
  valueQuantity : Option Quantity
  component : List Component
  category : List Category
deriving DecidableEq, Repr

/-- Python `a or b` for two optional strings under string truthiness
(`None` and `""` are falsy), returning a plain string with default `""`.
Mirrors `x.get("unit") or x.get("code") or ""`. -/
def pyStrOr (a : Option String) (b : String) : String :=
  match a with
  | none => b
  | some s => if s = "" then b else s

/-- Truthiness filter for an optional string: `""` and `None` become `none`.
Used for `if code and dt:` and `if disp := cc.get("display"):`. -/
def truthyStr (a : Option String) : Option String :=
  match a with
  | none => none
  | some s => if s = "" then none else some s

/-- Mirrors `(o.get("code", \x7b\x7d).get("coding") or [\x7b\x7d])[0]`:
first element of a coding list, or an all-absent coding when the list is
missing/empty. -/
def firstCoding (l : List Coding) : Coding :=
  l.headD ⟨none, none⟩

/-- Mirrors `t = o.get("effectiveDateTime") or o.get("issued")` under Python
string truthiness. -/
def rawTime (o : Obs) : Option TimeLit :=
  match o.effectiveDateTime with
  | some t => if t.empty then o.issued else some t
  | none => o.issued

/-- Embeds `_parse_dt` of `identify_chartable_patients.py`: pick
`effectiveDateTime or issued`; `None`/`""` or a parse failure yields `none`. -/
def parse_dt (o : Obs) : Option Int :=
  match rawTime o with
  | none => none
  | some t => if t.empty then none else t.parse

/-- Embeds `_parse_when` of `create_charts.py`.  It differs from
`_parse_dt` only in which concrete string parser is tried first; both are
abstracted into `TimeLit.parse`, so the two functions coincide here. -/
def parse_when (o : Obs) : Option Int :=
  parse_dt o

/-- Mirrors `unit_txt = vq.get("unit") or vq.get("code") or ""`. -/
def unitTxt (vq : Quantity) : String :=
  pyStrOr vq.unit (pyStrOr vq.code "")

/-! ### Insertion-ordered association lists (Python dict semantics) -/

/-- Append `v` to the list stored under `k`, creating the entry at the end
if absent — `defaultdict(list)` followed by `.append`. -/
def alPush {α : Type} : List (String × List α) → String → α → List (String × List α)
  | [], k, v => [(k, [v])]
  | (k', l) :: rest, k, v =>
    if k' = k then (k', l ++ [v]) :: rest else (k', l) :: alPush rest k v

/-- Increment the counter stored under `k` — `Counter[k] += 1`. -/
def alBump : List (String × Nat) → String → List (String × Nat)
  | [], k => [(k, 1)]
  | (k', n) :: rest, k =>
    if k' = k then (k', n + 1) :: rest else (k', n) :: alBump rest k

/-- Increment, inside an outer dict at key `k`, the inner counter at key
`sub` — `defaultdict(Counter)` followed by `[k][sub] += 1`. -/
def alBump2 : List (String × List (String × Nat)) → String → String →
    List (String × List (String × Nat))
  | [], k, sub => [(k, [(sub, 1)])]
  | (k', c) :: rest, k, sub =>
    if k' = k then (k', alBump c sub) :: rest else (k', c) :: alBump2 rest k sub

/-- Dictionary lookup with a default (`dict.get(k, d)` /
`defaultdict` read). -/
def alGet {α : Type} (m : List (String × α)) (k : String) (d : α) : α :=
  match m.find? (fun p => p.1 = k) with
  | some p => p.2
  | none => d

/-! ### Stable sort (Python `sorted` / `list.sort`) -/

/-- Insert `a` after every element `b` of an ordered list with `le b a`:
the insertion step of a stable insertion sort. -/
def insertLe {α : Type} (le : α → α → Bool) (a : α) : List α → List α
  | [] => [a]
  | b :: l => if le b a then b :: insertLe le a l else a :: b :: l

/-- Left-to-right stable insertion sort: elements are inserted in input
order, each after all its ties, which is exactly the stability guarantee
of Python's `sorted`. -/
def pySortAux {α : Type} (le : α → α → Bool) : List α → List α → List α
  | acc, [] => acc
  | acc, a :: l => pySortAux le (insertLe le a acc) l

/-- Stable sort modelling Python's `sorted(xs, key=...)`. -/
def pySort {α : Type} (le : α → α → Bool) (l : List α) : List α :=
  pySortAux le [] l

/-! ### Aggregation of `get_chartable_codes_for_patient` -/

/-- State of the aggregation loop: `points`, `labels`, `units_seen`
(all insertion-ordered, keyed by code). -/
structure AggState where
  points : List (String × List (Int × PyVal))
  labels : List (String × List (String × Nat))
  units_seen : List (String × List (String × Nat))
deriving DecidableEq, Repr

/-- The empty aggregation state. -/
def initAgg : AggState :=
  ⟨[], [], []⟩

/-- Record one point: `points[code].append((dt, value))`. -/
def aggPoints (st : AggState) (code : String) (t : Int) (v : PyVal) : AggState :=
  { st with points := alPush st.points code (t, v) }

/-- Record a display label when one is present (walrus-`if` in source). -/
def aggLabel (st : AggState) (code : String) (dispOpt : Option String) : AggState :=
  match dispOpt with
  | some disp => { st with labels := alBump2 st.labels code disp }
  | none => st

/-- Record a unit string when it is non-empty (`if unit_txt:`). -/
def aggUnit (st : AggState) (code : String) (u : String) : AggState :=
  if u = "" then st else { st with units_seen := alBump2 st.units_seen code u }

/-- Process one value-bearing site (a top-level `valueQuantity` or one
component): mirrors the two symmetric blocks of the aggregation loop in
`get_chartable_codes_for_patient`. -/
def aggVal (st : AggState) (dt : Option Int) (vqOpt : Option Quantity)
    (ccList : List Coding) : AggState :=
  match vqOpt with
  | none => st
  | some vq =>
    match vq.value with
    | none => st
    | some v =>
      match truthyStr (firstCoding ccList).code, dt with
      | some code, some t =>
        aggUnit
          (aggLabel (aggPoints st code t v) code
            (truthyStr (firstCoding ccList).display))
          code (unitTxt vq)
      | _, _ => st

/-- Process one Observation: the top-level value, then every component,
all sharing the record's parsed timestamp. -/
def aggObs (st : AggState) (o : Obs) : AggState :=
  o.component.foldl
    (fun s comp => aggVal s (parse_dt o) comp.valueQuantity comp.coding)
    (aggVal st (parse_dt o) o.valueQuantity o.coding)

/-- Aggregate a full observation list (the `for o in obs:` loop). -/
def aggregate (obs : List Obs) : AggState :=
  obs.foldl aggObs initAgg

/-- A `ChartableSeries` dict: `code`, `label`, `units`, `count`, `span_days`. -/
structure Series where
  code : String
  label : String
  units : List String
  count : Nat
  span_days : Int
deriving DecidableEq, Repr

/-- Comparator for timestamped points: `key=lambda x: x[0]`. -/
def timeLe (a b : Int × PyVal) : Bool :=
  a.1 ≤ b.1

/-- Comparator for `Counter.most_common()`: count descending, stable. -/
def cntLe (a b : String × Nat) : Bool :=
  b.2 ≤ a.2

/-- Majority label for a code: `labels[code].most_common(1)[0][0]` when the
counter is non-empty, else the fallback `"LOINC " + code`. -/
def labelFor (st : AggState) (code : String) : String :=
  match alGet st.labels code [] with
  | [] => "LOINC " ++ code
  | c =>
    match pySort cntLe c with
    | [] => "LOINC " ++ code
    | (d, _) :: _ => d

/-- Unit list for a code: keys of `units_seen[code].most_common()`. -/
def unitsFor (st : AggState) (code : String) : List String :=
  (pySort cntLe (alGet st.units_seen code [])).map Prod.fst

/-- Build one `ChartableSeries` from a `points` entry, applying the
`min_points` and `min_span_days` guards; `none` when the code is
discarded.  The `head?`/`getLast?` match cannot fall through to the final
catch-all: `points` entries are created non-empty and only appended to. -/
def mkSeries (st : AggState) (min_points : Nat) (min_span_days : Int)
    (p : String × List (Int × PyVal)) : Option Series :=
  if p.2.length < min_points then none
  else
    match (pySort timeLe p.2).head?, (pySort timeLe p.2).getLast? with
    | some f, some lst =>
      if Int.fdiv (lst.1 - f.1) 86400 < min_span_days then none
      else
        some ⟨p.1, labelFor st p.1, unitsFor st p.1, p.2.length,
          Int.fdiv (lst.1 - f.1) 86400⟩
    | _, _ => none

/-- Comparator for the final ranking:
`key=lambda d: (-d["count"], d["code"])`. -/
def seriesLe (a b : Series) : Bool :=
  decide (b.count < a.count ∨ (a.count = b.count ∧ a.code ≤ b.code))

/-- Embeds `get_chartable_codes_for_patient` with pre-fetched observations
(the `obs` parameter of the Python function; the HTTP fetch path is the
external Record Fetcher).  Aggregates numeric points per code, applies the
two thresholds, and sorts by count descending with ties by code. -/
def get_chartable_codes_for_patient (obs : List Obs) (min_points : Nat)
    (min_span_days : Int) : List Series :=
  let st := aggregate obs
  pySort seriesLe (st.points.filterMap (mkSeries st min_points min_span_days))

example :
    get_chartable_codes_for_patient
      [⟨some ⟨false, some 1577836800⟩, none, [⟨some "8480-6", some "SBP"⟩],
        some ⟨some (.num 120), some "mmHg", none⟩, [], []⟩,
       ⟨some ⟨false, some 1581724800⟩, none, [⟨some "8480-6", some "SBP"⟩],
        some ⟨some (.num 125), some "mmHg", none⟩, [], []⟩]
      2 7 =
    [⟨"8480-6", "SBP", ["mmHg"], 2, 45⟩] := by
  decide

/-! ### `group_chartables` -/

/-- Mutable state of the grouping pass: the `groups` dict (insertion
ordered, title to series list) and the `used_codes` set (modelled as a
duplicate-free list; only membership is ever consulted). -/
structure GState where
  groups : List (String × List Series)
  used : List String
deriving DecidableEq, Repr

/-- Append `ss` to the group list stored under title `t`
(`groups[t] += ss` on a `defaultdict(list)`). -/
def addSeries : List (String × List Series) → String → List Series →
    List (String × List Series)
  | [], t, ss => [(t, ss)]
  | (t', l) :: rest, t, ss =>
    if t' = t then (t', l ++ ss) :: rest else (t', l) :: addSeries rest t ss

/-- Set insertion (`used_codes.add(c)`): append only when absent. -/
def insertSet (u : List String) (c : String) : List String :=
  if c ∈ u then u else u ++ [c]

/-- Last-wins dictionary comprehension lookup:
`by_code = \x7bd["code"]: d for d in chartable_list\x7d`. -/
def byCode (l : List Series) (c : String) : Option Series :=
  l.reverse.find? (fun d => d.code = c)

/-- One table row of the grouping pass.  `guard` distinguishes the steps
that test `code not in used_codes` (steps 4-7 and the creatinine row of
step 5) from those that do not (steps 2, 3 and the eGFR row). -/
def place (byc : String → Option Series) (guard : Bool) (st : GState)
    (ct : String × String) : GState :=
  match byc ct.1 with
  | none => st
  | some s =>
    if guard ∧ ct.1 ∈ st.used then st
    else ⟨addSeries st.groups ct.2 [s], insertSet st.used ct.1⟩

/-- Step 1 of `group_chartables`: combine systolic `8480-6` and diastolic
`8462-4` when both are present, else give the present one its own group. -/
def bpStep (byc : String → Option Series) (st : GState) : GState :=
  match byc "8480-6", byc "8462-4" with
  | some s, some d =>
    ⟨addSeries st.groups "Blood Pressure (mmHg)" [s, d],
     insertSet (insertSet st.used "8480-6") "8462-4"⟩
  | some s, none => ⟨addSeries st.groups "BP (Systolic)" [s], insertSet st.used "8480-6"⟩
  | none, some d => ⟨addSeries st.groups "BP (Diastolic)" [d], insertSet st.used "8462-4"⟩
  | none, none => st

/-- The `vit_titles` table (step 2). -/
def vit_titles : List (String × String) :=
  [("8867-4", "Heart Rate (/min)"),
   ("9279-1", "Respiratory Rate (/min)"),
   ("8302-2", "Height (cm)"),
   ("29463-7", "Weight (kg)"),
   ("39156-5", "BMI (kg/m²)")]

/-- The `lipid_titles` table (step 3). -/
def lipid_titles : List (String × String) :=
  [("2093-3", "Cholesterol (mg/dL)"),
   ("2085-9", "HDL (mg/dL)"),
   ("18262-6", "LDL (mg/dL)"),
   ("2571-8", "Triglycerides (mg/dL)")]

/-- The `bmp_titles` table (step 4). -/
def bmp_titles : List (String × String) :=
  [("2339-0", "Glucose (mg/dL)"),
   ("2947-0", "Sodium (mmol/L)"),
   ("6298-4", "Potassium (mmol/L)"),
   ("2069-3", "Chloride (mmol/L)"),
   ("20565-8", "CO₂ (mmol/L)"),
   ("6299-2", "BUN (mg/dL)"),
   ("38483-4", "Creatinine (mg/dL)"),
   ("49765-1", "Calcium (mg/dL)")]

/-- The `liver_titles` table (step 6). -/
def liver_titles : List (String × String) :=
  [("1742-6", "ALT (U/L)"),
   ("1920-8", "AST (U/L)"),
   ("6768-6", "ALP (U/L)"),
   ("1975-2", "Bilirubin (mg/dL)"),
   ("1751-7", "Albumin (g/dL)"),
   ("2885-2", "Total Protein (g/dL)"),
   ("10834-0", "Globulin (g/L)")]

/-- The `survey_titles` table (step 7). -/
def survey_titles : List (String × String) :=
  [("72514-3", "Pain score (0–10)"),
   ("55758-7", "PHQ-2 total"),
   ("70274-6", "GAD-7 total"),
   ("76504-0", "HARK total"),
   ("63512-8", "Household size"),
   ("63586-2", "Household income (per annum)"),
   ("59460-6", "Morse fall risk total")]

/-- The `SURVEYS` constant of the source (defined there but never consulted
by `group_chartables`). -/
def SURVEYS : List String :=
  ["72514-3", "55758-7", "70274-6", "76504-0", "63512-8", "63586-2", "59460-6"]

/-- Fallback title of step 8:
`f"\x7bd['label']\x7d\x7bunit\x7d"` with `unit = f" (\x7bd['units'][0]\x7d)"`
when the `units` list is non-empty. -/
def fallbackTitle (d : Series) : String :=
  match d.units with
  | [] => d.label
  | u :: _ => d.label ++ " (" ++ u ++ ")"

/-- Step 8: any remaining unclaimed code gets its own chart keyed by its
fallback title. -/
def fallbackStep (st : GState) (d : Series) : GState :=
  if d.code ∈ st.used then st
  else ⟨addSeries st.groups (fallbackTitle d) [d], insertSet st.used d.code⟩

/-- State after steps 1-3 of `group_chartables`: blood pressure, vitals,
lipids. -/
def gcStep3 (l : List Series) : GState :=
  lipid_titles.foldl (place (byCode l) false)
    (vit_titles.foldl (place (byCode l) false) (bpStep (byCode l) ⟨[], []⟩))

/-- State after steps 4-6: metabolic-panel chemistries, renal (creatinine
guarded by `used_codes`, eGFR not), liver panel. -/
def gcStep7 (l : List Series) : GState :=
  liver_titles.foldl (place (byCode l) true)
    (place (byCode l) false
      (place (byCode l) true (bmp_titles.foldl (place (byCode l) true) (gcStep3 l))
        ("38483-4", "Creatinine (mg/dL)"))
      ("33914-3", "eGFR (mL/min/1.73m²)"))

/-- State after step 7: survey titles, only when `include_surveys`. -/
def gcStep8 (l : List Series) (include_surveys : Bool) : GState :=
  if include_surveys then survey_titles.foldl (place (byCode l) true) (gcStep7 l)
  else gcStep7 l

/-- Embeds `group_chartables`: the fixed-priority assignment of chartable
series to chart groups (steps 1-7 via the staged states above, then the
step-8 fallback over the original input list).  The returned
insertion-ordered association list models the returned `dict`. -/
def group_chartables (chartable_list : List Series) (include_surveys : Bool) :
    List (String × List Series) :=
  (chartable_list.foldl fallbackStep (gcStep8 chartable_list include_surveys)).groups

example :
    group_chartables
      [⟨"8480-6", "SBP", ["mmHg"], 6, 40⟩, ⟨"8462-4", "DBP", ["mmHg"], 6, 40⟩,
       ⟨"8867-4", "HR", ["/min"], 5, 30⟩, ⟨"0000-0", "Odd", [], 5, 30⟩]
      false =
    [("Blood Pressure (mmHg)",
      [⟨"8480-6", "SBP", ["mmHg"], 6, 40⟩, ⟨"8462-4", "DBP", ["mmHg"], 6, 40⟩]),
     ("Heart Rate (/min)", [⟨"8867-4", "HR", ["/min"], 5, 30⟩]),
     ("Odd", [⟨"0000-0", "Odd", [], 5, 30⟩])] := by
  decide

/-! ### Pagination models

The HTTP layer is modelled by the list of result pages (bundles) the
server would serve in order.  A "next" link is present exactly when
further pages remain.  Each page is the list of `entry[*].resource`
Observations of that bundle. -/

/-- Embeds the `while True` loop of `get_observations_for_patient`:
extend `out` with the whole page, then stop when there is no next link or
`count` is reached, else follow the next link. -/
def obsLoop (count : Nat) : List (List Obs) → List Obs → List Obs
  | [], out => out
  | p :: rest, out =>
    let out1 := out ++ p
    if rest = [] ∨ count ≤ out1.length then out1 else obsLoop count rest out1

/-- Embeds `get_observations_for_patient` (query construction aside, which
is external transport): paginated retrieval capped by `count`. -/
def get_observations_for_patient (pages : List (List Obs)) (count : Nat) : List Obs :=
  obsLoop count pages []

/-- Python `str.strip()` with no argument: drop leading and trailing
whitespace.  Implemented over the character list so that it reduces under
`decide` (Python strips a slightly larger Unicode whitespace class; the
codes involved here are plain ASCII). -/
def pyStrip (s : String) : String :=
  String.mk (((s.data.dropWhile Char.isWhitespace).reverse.dropWhile
    Char.isWhitespace).reverse)

/-- Category tokens of one Observation, as collected by
`get_observation_counts_for_patient`: codes (stripped, non-empty) of each
category's codings, falling back to the category's `text` when there are
no codings.  Python collects them into a `set`; the set is modelled as a
duplicate-free list in first-seen order (its iteration order only affects
dict key order, never the counts). -/
def toksOf (o : Obs) : List String :=
  o.category.foldl
    (fun acc cat =>
      match cat.coding with
      | [] =>
        match cat.text with
        | some txt => if pyStrip txt = "" then acc else insertSet acc (pyStrip txt)
        | none => acc
      | _ :: _ =>
        cat.coding.foldl
          (fun acc2 c =>
            match c.code with
            | some s => if pyStrip s = "" then acc2 else insertSet acc2 (pyStrip s)
            | none => acc2)
          acc)
    []

/-- Bump every token of one Observation in the counts dict
(`counts[t] = counts.get(t, 0) + 1`). -/
def bumpToks (counts : List (String × Nat)) (o : Obs) : List (String × Nat) :=
  (toksOf o).foldl alBump counts

/-- Inner `for e in js.get("entry", [])` loop of
`get_observation_counts_for_patient`: counts each entry's tokens, then
`break`s as soon as `seen >= sample` — possibly mid-page.  Returns the
updated counts and `seen`. -/
def procPage (sample : Nat) : List Obs → List (String × Nat) → Nat →
    List (String × Nat) × Nat
  | [], counts, seen => (counts, seen)
  | o :: rest, counts, seen =>
    let counts1 := bumpToks counts o
    let seen1 := seen + 1
    if sample ≤ seen1 then (counts1, seen1) else procPage sample rest counts1 seen1

/-- Outer `while True` loop of `get_observation_counts_for_patient`:
process a page, stop if `seen >= sample` or no next link, else follow. -/
def countsLoop (sample : Nat) : List (List Obs) → List (String × Nat) → Nat →
    List (String × Nat)
  | [], counts, _ => counts
  | p :: rest, counts, seen =>
    let r := procPage sample p counts seen
    if sample ≤ r.2 then r.1
    else
      match rest with
      | [] => r.1
      | _ :: _ => countsLoop sample rest r.1 r.2

/-- Embeds `get_observation_counts_for_patient` over a served page stream:
per-category counts with the `sample` scan cap. -/
def get_observation_counts_for_patient (pages : List (List Obs)) (sample : Nat) :
    List (String × Nat) :=
  countsLoop sample pages [] 0

/-- Reference count: tally the category tokens of a plain entry list. -/
def countsOfEntries (entries : List Obs) : List (String × Nat) :=
  entries.foldl bumpToks []

/-! ### `fetch_timeseries_for_codes` of `create_charts.py` -/

/-- Python `float` on a modelled JSON value: numbers coerce; strings carry
their own parse outcome, `none` meaning `float` raises `ValueError`. -/
def pyFloat : PyVal → Option ℚ
  | .num q => some q
  | .str p => p

/-- Accumulator of `fetch_timeseries_for_codes`:
`code -> list of (dt, value, unit)`. -/
def FtsState : Type :=
  List (String × List (Int × ℚ × String))

instance : DecidableEq FtsState := by
  unfold FtsState
  infer_instance

/-- The exception message used to model an uncaught Python `float`
failure aborting the batch. -/
def floatError : String :=
  "ValueError: could not convert string to float"

/-- Component sub-loop of `fetch_timeseries_for_codes`: skips components
without a usable numeric value or whose code is not requested; an
unconvertible value raises. -/
def ftsComps (codes : List String) (dt : Int) :
    List Component → FtsState → Except String FtsState
  | [], st => .ok st
  | comp :: rest, st =>
    match comp.valueQuantity with
    | none => ftsComps codes dt rest st
    | some vqc =>
      match vqc.value with
      | none => ftsComps codes dt rest st
      | some v =>
        match (firstCoding comp.coding).code with
        | some ccode =>
          if ccode ∈ codes then
            match pyFloat v with
            | some q => ftsComps codes dt rest (alPush st ccode (dt, q, unitTxt vqc))
            | none => .error floatError
          else ftsComps codes dt rest st
        | none => ftsComps codes dt rest st

/-- Top-level value collection of one entry of
`fetch_timeseries_for_codes`. -/
def ftsTop (codes : List String) (st : FtsState) (dt : Int) (o : Obs) :
    Except String FtsState :=
  match o.valueQuantity with
  | none => .ok st
  | some vq =>
    match vq.value with
    | none => .ok st
    | some v =>
      match (firstCoding o.coding).code with
      | some ccode =>
        if ccode ∈ codes then
          match pyFloat v with
          | some q => .ok (alPush st ccode (dt, q, unitTxt vq))
          | none => .error floatError
        else .ok st
      | none => .ok st

/-- Per-entry body of `fetch_timeseries_for_codes`: a record without a
parsable timestamp is skipped whole; then the top-level value and every
component value are collected. -/
def ftsEntry (codes : List String) (st : FtsState) (o : Obs) :
    Except String FtsState :=
  match parse_when o with
  | none => .ok st
  | some dt =>
    match ftsTop codes st dt o with
    | .error e => .error e
    | .ok st1 => ftsComps codes dt o.component st1

/-- One page of entries, propagating a raised exception. -/
def ftsPage (codes : List String) : List Obs → FtsState → Except String FtsState
  | [], st => .ok st
  | o :: rest, st =>
    match ftsEntry codes st o with
    | .error e => .error e
    | .ok st1 => ftsPage codes rest st1

/-- Page-following loop of `fetch_timeseries_for_codes`. -/
def ftsLoop (codes : List String) : List (List Obs) → FtsState →
    Except String FtsState
  | [], st => .ok st
  | p :: rest, st =>
    match ftsPage codes p st with
    | .error e => .error e
    | .ok st1 => ftsLoop codes rest st1

/-- Comparator for the final per-code sort: `key=lambda t: t[0]`. -/
def ftsLe (a b : Int × ℚ × String) : Bool :=
  a.1 ≤ b.1

/-- Embeds `fetch_timeseries_for_codes` over a served page stream: collect
every requested numeric point, then sort each series by time.  An
unconvertible `value` propagates as an exception (`Except.error`),
aborting the whole batch. -/
def fetch_timeseries_for_codes (pages : List (List Obs)) (codes : List String) :
    Except String FtsState :=
  match ftsLoop codes pages [] with
  | .error e => .error e
  | .ok st => .ok (st.map (fun p => (p.1, pySort ftsLe p.2)))

example :
    get_observation_counts_for_patient
      [[⟨none, none, [], none, [], [⟨[⟨some "vital-signs", none⟩], none⟩]⟩,
        ⟨none, none, [], none, [], [⟨[⟨some "laboratory", none⟩], none⟩]⟩]]
      1 =
    [("vital-signs", 1)] := by
  decide

/-! ### Lemmas about the stable sort -/

theorem insertLe_perm {α : Type} (le : α → α → Bool) (a : α) (l : List α) :
    List.Perm (insertLe le a l) (a :: l) := by
  induction l with
  | nil => rfl
  | cons b t ih =>
    simp only [insertLe]
    split
    · exact (ih.cons b).trans (List.Perm.swap a b t)
    · rfl

theorem pySortAux_perm {α : Type} (le : α → α → Bool) :
    ∀ (l acc : List α), List.Perm (pySortAux le acc l) (acc ++ l) := by
  intro l
  induction l with
  | nil => intro acc; simp [pySortAux]
  | cons a t ih =>
    intro acc
    simp only [pySortAux]
    exact ((ih _).trans (((insertLe_perm le a acc).append_right t).trans
      List.perm_middle.symm))

theorem pySort_perm {α : Type} (le : α → α → Bool) (l : List α) :
    List.Perm (pySort le l) l := by
  simpa [pySort] using pySortAux_perm le l []

theorem mem_pySort {α : Type} {le : α → α → Bool} {l : List α} {a : α} :
    a ∈ pySort le l ↔ a ∈ l :=
  (pySort_perm le l).mem_iff

theorem insertLe_pairwise {α : Type} {le : α → α → Bool}
    (total : ∀ a b, le a b = true ∨ le b a = true)
    (trans : ∀ a b c, le a b = true → le b c = true → le a c = true)
    {l : List α} (h : l.Pairwise (fun x y => le x y = true)) (a : α) :
    (insertLe le a l).Pairwise (fun x y => le x y = true) := by
  induction l with
  | nil => simp [insertLe]
  | cons b t ih =>
    rcases List.pairwise_cons.mp h with ⟨hb, ht⟩
    simp only [insertLe]
    split
    · refine List.pairwise_cons.mpr ⟨?_, ih ht⟩
      intro y hy
      rcases List.mem_cons.mp ((insertLe_perm le a t).mem_iff.mp hy) with hy1 | hy1
      · subst hy1; assumption
      · exact hb y hy1
    · refine List.pairwise_cons.mpr ⟨?_, h⟩
      intro y hy
      have hab : le a b = true := by
        rcases total a b with h1 | h1
        · exact h1
        · simp_all
      rcases List.mem_cons.mp hy with hy1 | hy1
      · subst hy1; exact hab
      · exact trans a b y hab (hb y hy1)

theorem pySortAux_pairwise {α : Type} {le : α → α → Bool}
    (total : ∀ a b, le a b = true ∨ le b a = true)
    (trans : ∀ a b c, le a b = true → le b c = true → le a c = true) :
    ∀ (l acc : List α), acc.Pairwise (fun x y => le x y = true) →
      (pySortAux le acc l).Pairwise (fun x y => le x y = true) := by
  intro l
  induction l with
  | nil => intro acc hacc; simpa [pySortAux] using hacc
  | cons a t ih =>
    intro acc hacc
    simp only [pySortAux]
    exact ih _ (insertLe_pairwise total trans hacc a)

theorem pySort_pairwise {α : Type} {le : α → α → Bool}
    (total : ∀ a b, le a b = true ∨ le b a = true)
    (trans : ∀ a b c, le a b = true → le b c = true → le a c = true)
    (l : List α) : (pySort le l).Pairwise (fun x y => le x y = true) :=
  pySortAux_pairwise total trans l [] (List.Pairwise.nil)

theorem pairwise_head_le {α : Type} {le : α → α → Bool}
    (total : ∀ a b, le a b = true ∨ le b a = true)
    {l : List α} (h : l.Pairwise (fun x y => le x y = true)) {f : α}
    (hf : l.head? = some f) : ∀ x ∈ l, le f x = true := by
  intro x hx
  cases l with
  | nil => cases hf
  | cons b t =>
    have hbf : b = f := by simpa using hf
    rcases List.pairwise_cons.mp h with ⟨hb, _⟩
    rcases List.mem_cons.mp hx with hx1 | hx1
    · rw [hx1, ← hbf]
      rcases total b b with h1 | h1 <;> exact h1
    · rw [← hbf]
      exact hb x hx1

theorem pairwise_le_getLast {α : Type} {le : α → α → Bool}
    (total : ∀ a b, le a b = true ∨ le b a = true) :
    ∀ {l : List α}, l.Pairwise (fun x y => le x y = true) → ∀ {g : α},
      l.getLast? = some g → ∀ x ∈ l, le x g = true := by
  intro l
  induction l with
  | nil => intro _ g hg; cases hg
  | cons b t ih =>
    intro h g hg x hx
    rcases List.pairwise_cons.mp h with ⟨hb, ht⟩
    cases t with
    | nil =>
      simp only [List.getLast?_singleton, Option.some.injEq] at hg
      subst hg
      rcases List.mem_cons.mp hx with hx1 | hx1
      · subst hx1
        rcases total x x with h1 | h1 <;> exact h1
      · cases hx1
    | cons c u =>
      have hg2 : (c :: u).getLast? = some g := by
        simpa [List.getLast?_cons_cons] using hg
      rcases List.mem_cons.mp hx with hx1 | hx1
      · subst hx1
        have hgmem : g ∈ c :: u := List.mem_of_getLast?_eq_some hg2
        exact hb g hgmem
      · exact ih ht hg2 x hx1

/-! ### Characterising membership in the classifier output -/

theorem mem_get_chartable_iff {obs : List Obs} {mp : Nat} {msd : Int} {s : Series} :
    s ∈ get_chartable_codes_for_patient obs mp msd ↔
      ∃ p, p ∈ (aggregate obs).points ∧
        mkSeries (aggregate obs) mp msd p = some s := by
  unfold get_chartable_codes_for_patient
  rw [mem_pySort, List.mem_filterMap]

theorem mkSeries_some {st : AggState} {mp : Nat} {msd : Int}
    {p : String × List (Int × PyVal)} {s : Series}
    (h : mkSeries st mp msd p = some s) :
    s.code = p.1 ∧ s.count = p.2.length ∧ mp ≤ p.2.length ∧ msd ≤ s.span_days ∧
      s.label = labelFor st p.1 ∧ s.units = unitsFor st p.1 ∧
      ∃ f lst, (pySort timeLe p.2).head? = some f ∧
        (pySort timeLe p.2).getLast? = some lst ∧
        s.span_days = Int.fdiv (lst.1 - f.1) 86400 := by
  unfold mkSeries at h
  split at h
  · cases h
  · rename_i hlen
    split at h
    · rename_i f lst hf hlst
      split at h
      · cases h
      · rename_i hspan
        cases h
        refine ⟨rfl, rfl, by omega, by simpa using hspan, rfl, rfl, f, lst, hf, hlst, rfl⟩
    · cases h

theorem mkSeries_mono {st : AggState} {mp mp' : Nat} {msd msd' : Int}
    {p : String × List (Int × PyVal)} {s : Series}
    (h1 : mp ≤ mp') (h2 : msd ≤ msd')
    (h : mkSeries st mp' msd' p = some s) : mkSeries st mp msd p = some s := by
  unfold mkSeries at h ⊢
  split at h
  · cases h
  · rename_i hlen
    rw [if_neg (by omega)]
    split at h
    · rename_i f lst hf hlst
      rw [hf, hlst] at *
      split at h
      · cases h
      · rename_i hspan
        rw [if_neg (by omega)]
        exact h
    · cases h

/-- C5 — Classifier output postcondition: every returned `ChartableSeries`
meets both thresholds: `min_points <= count` and
`min_span_days <= span_days`. -/
theorem classifier_postcondition (obs : List Obs) (mp : Nat) (msd : Int) :
    ∀ s ∈ get_chartable_codes_for_patient obs mp msd,
      mp ≤ s.count ∧ msd ≤ s.span_days := by
  intro s hs
  rcases mem_get_chartable_iff.mp hs with ⟨p, _, hmk⟩
  rcases mkSeries_some hmk with ⟨_, hcnt, hmp, hmsd, _⟩
  exact ⟨by omega, hmsd⟩

/-- Witness for `classifier_postcondition` at a concrete input. -/
theorem classifier_postcondition_witness :
    2 ≤ (⟨"8480-6", "SBP", ["mmHg"], 2, 45⟩ : Series).count ∧
      (7 : Int) ≤ (⟨"8480-6", "SBP", ["mmHg"], 2, 45⟩ : Series).span_days :=
  classifier_postcondition
    [⟨some ⟨false, some 1577836800⟩, none, [⟨some "8480-6", some "SBP"⟩],
      some ⟨some (.num 120), some "mmHg", none⟩, [], []⟩,
     ⟨some ⟨false, some 1581724800⟩, none, [⟨some "8480-6", some "SBP"⟩],
      some ⟨some (.num 125), some "mmHg", none⟩, [], []⟩]
    2 7 ⟨"8480-6", "SBP", ["mmHg"], 2, 45⟩ (by decide)

/-- C7 — Threshold monotonicity: raising either threshold never adds a
chartable code. -/
theorem threshold_monotonicity (obs : List Obs) (mp mp' : Nat) (msd msd' : Int)
    (h1 : mp ≤ mp') (h2 : msd ≤ msd') :
    ∀ c ∈ (get_chartable_codes_for_patient obs mp' msd').map Series.code,
      c ∈ (get_chartable_codes_for_patient obs mp msd).map Series.code := by
  intro c hc
  rcases List.mem_map.mp hc with ⟨s, hs, hcode⟩
  rcases mem_get_chartable_iff.mp hs with ⟨p, hp, hmk⟩
  exact List.mem_map.mpr ⟨s, mem_get_chartable_iff.mpr
    ⟨p, hp, mkSeries_mono h1 h2 hmk⟩, hcode⟩

/-- Witness for `threshold_monotonicity` at a concrete input. -/
theorem threshold_monotonicity_witness :
    "8480-6" ∈ (get_chartable_codes_for_patient
      [⟨some ⟨false, some 1577836800⟩, none, [⟨some "8480-6", some "SBP"⟩],
        some ⟨some (.num 120), some "mmHg", none⟩, [], []⟩,
       ⟨some ⟨false, some 1581724800⟩, none, [⟨some "8480-6", some "SBP"⟩],
        some ⟨some (.num 125), some "mmHg", none⟩, [], []⟩]
      1 3).map Series.code :=
  threshold_monotonicity _ 1 2 3 7 (by decide) (by decide) "8480-6" (by decide)

theorem seriesLe_total : ∀ a b : Series, seriesLe a b = true ∨ seriesLe b a = true := by
  intro a b
  simp only [seriesLe, decide_eq_true_eq]
  rcases Nat.lt_trichotomy a.count b.count with h | h | h
  · exact Or.inr (Or.inl h)
  · rcases le_total a.code b.code with hc | hc
    · exact Or.inl (Or.inr ⟨h, hc⟩)
    · exact Or.inr (Or.inr ⟨h.symm, hc⟩)
  · exact Or.inl (Or.inl h)

theorem seriesLe_trans : ∀ a b c : Series,
    seriesLe a b = true → seriesLe b c = true → seriesLe a c = true := by
  intro a b c hab hbc
  simp only [seriesLe, decide_eq_true_eq] at hab hbc ⊢
  rcases hab with h1 | ⟨h1, h1c⟩
  · rcases hbc with h2 | ⟨h2, _⟩
    · exact Or.inl (by omega)
    · exact Or.inl (by omega)
  · rcases hbc with h2 | ⟨h2, h2c⟩
    · exact Or.inl (by omega)
    · exact Or.inr ⟨by omega, le_trans h1c h2c⟩

/-- C8 — Classifier output ordering: the returned list is sorted by count
descending, ties broken by ascending code string.  (The embedding is a
pure function, so determinism on identical input is definitional.) -/
theorem classifier_output_ordering (obs : List Obs) (mp : Nat) (msd : Int) :
    (get_chartable_codes_for_patient obs mp msd).Pairwise
      (fun a b => b.count < a.count ∨ (a.count = b.count ∧ a.code ≤ b.code)) := by
  have h := pySort_pairwise seriesLe_total seriesLe_trans
    ((aggregate obs).points.filterMap
      (mkSeries (aggregate obs) mp msd))
  unfold get_chartable_codes_for_patient
  exact h.imp (fun hx => by simpa [seriesLe, decide_eq_true_eq] using hx)

/-! ### C9 — span computation -/

theorem timeLe_total : ∀ a b : Int × PyVal, timeLe a b = true ∨ timeLe b a = true := by
  intro a b
  simp only [timeLe, decide_eq_true_eq]
  omega

theorem timeLe_trans : ∀ a b c : Int × PyVal,
    timeLe a b = true → timeLe b c = true → timeLe a c = true := by
  intro a b c
  simp only [timeLe, decide_eq_true_eq]
  omega

theorem fdiv_nonneg_toNat_div (a : Int) (h : 0 ≤ a) :
    Int.fdiv a 86400 = ((a.toNat / 86400 : Nat) : Int) := by
  obtain ⟨n, rfl⟩ : ∃ n : Nat, a = (n : Int) := ⟨a.toNat, (Int.toNat_of_nonneg h).symm⟩
  rw [Int.fdiv_eq_ediv _ (by decide), Int.toNat_natCast, Int.ofNat_ediv]
  norm_num

theorem mem_of_head?_some {α : Type} {l : List α} {f : α} (hf : l.head? = some f) :
    f ∈ l := by
  rcases List.head?_eq_some_iff.mp hf with ⟨ys, rfl⟩
  exact List.mem_cons_self f ys

/-- Two Observations of code `8480-6` at 2020-01-01T00:00:00Z
(epoch second 1577836800) and 2020-02-15T00:00:00Z (epoch second
1581724800 = 1577836800 + 45 * 86400). -/
def spanObs : List Obs :=
  [⟨some ⟨false, some 1577836800⟩, none, [⟨some "8480-6", some "SBP"⟩],
    some ⟨some (.num 120), some "mmHg", none⟩, [], []⟩,
   ⟨some ⟨false, some 1581724800⟩, none, [⟨some "8480-6", some "SBP"⟩],
    some ⟨some (.num 125), some "mmHg", none⟩, [], []⟩]

/-- C9 — Span computation: for every series in the classifier output,
`span_days` is the truncated integer number of days between the earliest
and the latest aggregated point of its code (floor division of the
nonnegative second difference by 86400, i.e. truncation); concretely, for
points at 2020-01-01 and 2020-02-15 the span is 45 days. -/
theorem span_computation :
    (∀ (obs : List Obs) (mp : Nat) (msd : Int) (s : Series),
      s ∈ get_chartable_codes_for_patient obs mp msd →
      ∃ pts, (s.code, pts) ∈ (aggregate obs).points ∧
        ∃ tmin tmax : Int, tmin ∈ pts.map Prod.fst ∧ tmax ∈ pts.map Prod.fst ∧
          (∀ t ∈ pts.map Prod.fst, tmin ≤ t ∧ t ≤ tmax) ∧
          s.span_days = (((tmax - tmin).toNat / 86400 : Nat) : Int)) ∧
    (get_chartable_codes_for_patient spanObs 2 7).map Series.span_days = [45] := by
  constructor
  · intro obs mp msd s hs
    rcases mem_get_chartable_iff.mp hs with ⟨p, hp, hmk⟩
    rcases mkSeries_some hmk with
      ⟨hcode, _, _, _, _, _, f, lst, hf, hlst, hspan⟩
    refine ⟨p.2, ?_, f.1, lst.1, ?_, ?_, ?_, ?_⟩
    · have : (s.code, p.2) = p := by
        rw [hcode]
      rw [this]
      exact hp
    · exact List.mem_map.mpr ⟨f, mem_pySort.mp (mem_of_head?_some hf), rfl⟩
    · exact List.mem_map.mpr ⟨lst, mem_pySort.mp
        (List.mem_of_getLast?_eq_some hlst), rfl⟩
    · intro t ht
      rcases List.mem_map.mp ht with ⟨x, hx, rfl⟩
      have hxs : x ∈ pySort timeLe p.2 := mem_pySort.mpr hx
      have hsorted := pySort_pairwise timeLe_total timeLe_trans p.2
      have h1 := pairwise_head_le timeLe_total hsorted hf x hxs
      have h2 := pairwise_le_getLast timeLe_total hsorted hlst x hxs
      simp only [timeLe, decide_eq_true_eq] at h1 h2
      exact ⟨h1, h2⟩
    · have hfl : f.1 ≤ lst.1 := by
        have hls : lst ∈ pySort timeLe p.2 := List.mem_of_getLast?_eq_some hlst
        have hsorted := pySort_pairwise timeLe_total timeLe_trans p.2
        have := pairwise_head_le timeLe_total hsorted hf lst hls
        simpa [timeLe, decide_eq_true_eq] using this
      rw [hspan]
      exact fdiv_nonneg_toNat_div _ (by omega)
  · decide

/-- Witness for the quantified half of `span_computation`, at the
concrete two-point input. -/
theorem span_computation_witness :
    ∃ pts, ((⟨"8480-6", "SBP", ["mmHg"], 2, 45⟩ : Series).code, pts) ∈
        (aggregate spanObs).points ∧
      ∃ tmin tmax : Int, tmin ∈ pts.map Prod.fst ∧ tmax ∈ pts.map Prod.fst ∧
        (∀ t ∈ pts.map Prod.fst, tmin ≤ t ∧ t ≤ tmax) ∧
        (⟨"8480-6", "SBP", ["mmHg"], 2, 45⟩ : Series).span_days =
          (((tmax - tmin).toNat / 86400 : Nat) : Int) :=
  span_computation.1 spanObs 2 7 ⟨"8480-6", "SBP", ["mmHg"], 2, 45⟩ (by decide)

/-! ### C10 — units are non-empty strings, empty units are dropped -/

theorem alBump_keys {c : List (String × Nat)} {k : String} :
    ∀ q ∈ alBump c k, q.1 = k ∨ q ∈ c := by
  induction c with
  | nil =>
    intro q hq
    simp only [alBump] at hq
    rw [List.mem_singleton] at hq
    subst hq
    exact Or.inl rfl
  | cons p rest ih =>
    intro q hq
    simp only [alBump] at hq
    split at hq
    · rename_i heq
      rcases List.mem_cons.mp hq with h | h
      · subst h
        exact Or.inl heq
      · exact Or.inr (List.mem_cons.mpr (Or.inr h))
    · rcases List.mem_cons.mp hq with h | h
      · subst h
        exact Or.inr (List.mem_cons_self p rest)
      · rcases ih q h with h1 | h1
        · exact Or.inl h1
        · exact Or.inr (List.mem_cons.mpr (Or.inr h1))

/-- All inner counter keys of a nested counter dict satisfy `P`. -/
def InnerKeys (P : String → Prop) (m : List (String × List (String × Nat))) : Prop :=
  ∀ p ∈ m, ∀ q ∈ p.2, P q.1

theorem alBump2_innerKeys {P : String → Prop}
    {m : List (String × List (String × Nat))} {k sub : String}
    (hm : InnerKeys P m) (hsub : P sub) : InnerKeys P (alBump2 m k sub) := by
  induction m with
  | nil =>
    intro p hp q hq
    simp only [alBump2] at hp
    rw [List.mem_singleton] at hp
    subst hp
    rw [List.mem_singleton] at hq
    subst hq
    exact hsub
  | cons e rest ih =>
    intro p hp q hq
    simp only [alBump2] at hp
    split at hp
    · rcases List.mem_cons.mp hp with h | h
      · subst h
        rcases alBump_keys q hq with h1 | h1
        · rw [h1]
          exact hsub
        · exact hm e (List.mem_cons_self e rest) q h1
      · exact hm p (List.mem_cons.mpr (Or.inr h)) q hq
    · rcases List.mem_cons.mp hp with h | h
      · subst h
        exact hm e (List.mem_cons_self e rest) q hq
      · exact ih (fun p2 hp2 q2 hq2 =>
          hm p2 (List.mem_cons.mpr (Or.inr hp2)) q2 hq2) p h q hq

theorem aggLabel_units_seen (st : AggState) (c : String) (dOpt : Option String) :
    (aggLabel st c dOpt).units_seen = st.units_seen := by
  unfold aggLabel
  split <;> rfl

theorem aggUnit_unitsKeys {st : AggState} {c u : String}
    (h : InnerKeys (fun x => x ≠ "") st.units_seen) :
    InnerKeys (fun x => x ≠ "") (aggUnit st c u).units_seen := by
  unfold aggUnit
  split
  · exact h
  · rename_i hu
    simpa [InnerKeys] using alBump2_innerKeys h hu

theorem aggVal_unitsKeys {st : AggState} {dt : Option Int} {vqOpt : Option Quantity}
    {ccList : List Coding}
    (h : InnerKeys (fun u => u ≠ "") st.units_seen) :
    InnerKeys (fun u => u ≠ "") (aggVal st dt vqOpt ccList).units_seen := by
  unfold aggVal
  split
  · exact h
  · split
    · exact h
    · split
      · apply aggUnit_unitsKeys
        intro p hp q hq
        rw [aggLabel_units_seen] at hp
        exact h p hp q hq
      · exact h

theorem aggObs_unitsKeys {st : AggState} {o : Obs}
    (h : InnerKeys (fun u => u ≠ "") st.units_seen) :
    InnerKeys (fun u => u ≠ "") (aggObs st o).units_seen := by
  unfold aggObs
  have hcomp : ∀ (comps : List Component) (st1 : AggState),
      InnerKeys (fun u => u ≠ "") st1.units_seen →
      InnerKeys (fun u => u ≠ "")
        (comps.foldl
          (fun s comp => aggVal s (parse_dt o) comp.valueQuantity comp.coding)
          st1).units_seen := by
    intro comps
    induction comps with
    | nil =>
      intro st1 h1
      simpa using h1
    | cons c rest ih =>
      intro st1 h1
      exact ih _ (aggVal_unitsKeys h1)
  exact hcomp o.component _ (aggVal_unitsKeys h)

theorem aggregate_unitsKeys (obs : List Obs) :
    InnerKeys (fun u => u ≠ "") (aggregate obs).units_seen := by
  unfold aggregate
  have hfold : ∀ (l : List Obs) (st : AggState),
      InnerKeys (fun u => u ≠ "") st.units_seen →
      InnerKeys (fun u => u ≠ "") (l.foldl aggObs st).units_seen := by
    intro l
    induction l with
    | nil =>
      intro st h
      simpa using h
    | cons o rest ih =>
      intro st h
      exact ih _ (aggObs_unitsKeys h)
  exact hfold obs initAgg (by intro p hp; cases hp)

theorem alGet_mem {α : Type} {m : List (String × List α)} {k : String} {q : α}
    (h : q ∈ alGet m k []) : ∃ p, p ∈ m ∧ p.1 = k ∧ q ∈ p.2 := by
  unfold alGet at h
  split at h
  · rename_i p hp
    refine ⟨p, List.mem_of_find?_eq_some hp, ?_, h⟩
    have := List.find?_some hp
    simpa using this
  · cases h

/-- Two Observations of code `8480-6` whose `valueQuantity` has neither a
`unit` nor a `code` field: points still count, units stay empty. -/
def noUnitObs : List Obs :=
  [⟨some ⟨false, some 1577836800⟩, none, [⟨some "8480-6", some "SBP"⟩],
    some ⟨some (.num 120), none, none⟩, [], []⟩,
   ⟨some ⟨false, some 1581724800⟩, none, [⟨some "8480-6", some "SBP"⟩],
    some ⟨some (.num 125), none, none⟩, [], []⟩]

/-- C10 — every element of a returned `units` list is a non-empty string;
a point with no unit text still contributes to `count` and `span_days`, so
a qualifying series can come back with `units = []`. -/
theorem units_nonempty_strings :
    (∀ (obs : List Obs) (mp : Nat) (msd : Int) (s : Series),
      s ∈ get_chartable_codes_for_patient obs mp msd → ∀ u ∈ s.units, u ≠ "") ∧
    get_chartable_codes_for_patient noUnitObs 2 7 =
      [⟨"8480-6", "SBP", [], 2, 45⟩] := by
  constructor
  · intro obs mp msd s hs u hu
    rcases mem_get_chartable_iff.mp hs with ⟨p, hp, hmk⟩
    rcases mkSeries_some hmk with ⟨_, _, _, _, _, hunits, _⟩
    rw [hunits] at hu
    unfold unitsFor at hu
    rcases List.mem_map.mp hu with ⟨q, hq, rfl⟩
    have hq2 := mem_pySort.mp hq
    rcases alGet_mem hq2 with ⟨pr, hpr, _, hqin⟩
    exact aggregate_unitsKeys obs pr hpr q hqin
  · decide

/-- Witness for the quantified half of `units_nonempty_strings`. -/
theorem units_nonempty_strings_witness : ("mmHg" : String) ≠ "" :=
  units_nonempty_strings.1 spanObs 2 7 ⟨"8480-6", "SBP", ["mmHg"], 2, 45⟩
    (by decide) "mmHg" (by decide)

/-! ### Grouping invariants (C1, C4, C6) -/

/-- Total number of series across all groups. -/
def totalLen (g : List (String × List Series)) : Nat :=
  (g.map (fun p => p.2.length)).sum

/-- Number of occurrences of code `c` across all groups. -/
def codeCount (g : List (String × List Series)) (c : String) : Nat :=
  (g.map (fun p => p.2.countP (fun s => s.code = c))).sum

/-- The group titles, in insertion order. -/
def gKeys (g : List (String × List Series)) : List String :=
  g.map Prod.fst

/-- Group lookup by title (`dict` access on the result). -/
def lookupG (g : List (String × List Series)) (t : String) : Option (List Series) :=
  match g.find? (fun p => p.1 = t) with
  | some p => some p.2
  | none => none

theorem addSeries_totalLen (g : List (String × List Series)) (t : String)
    (ss : List Series) : totalLen (addSeries g t ss) = totalLen g + ss.length := by
  induction g with
  | nil => simp [addSeries, totalLen]
  | cons p rest ih =>
    simp only [addSeries]
    split
    · simp [totalLen]
      omega
    · simp only [totalLen, List.map_cons, List.sum_cons] at ih ⊢
      omega

theorem addSeries_codeCount (g : List (String × List Series)) (t : String)
    (ss : List Series) (c : String) :
    codeCount (addSeries g t ss) c = codeCount g c + ss.countP (fun s => s.code = c) := by
  induction g with
  | nil => simp [addSeries, codeCount]
  | cons p rest ih =>
    simp only [addSeries]
    split
    · simp [codeCount, List.countP_append]
      omega
    · simp only [codeCount, List.map_cons, List.sum_cons] at ih ⊢
      omega

theorem addSeries_gKeys (g : List (String × List Series)) (t : String)
    (ss : List Series) :
    gKeys (addSeries g t ss) = if t ∈ gKeys g then gKeys g else gKeys g ++ [t] := by
  induction g with
  | nil => simp [addSeries, gKeys]
  | cons p rest ih =>
    simp only [addSeries]
    split
    · rename_i heq
      simp [gKeys, heq]
    · rename_i hne
      have hne2 : ¬ t = p.1 := fun h => hne h.symm
      simp only [gKeys, List.map_cons] at ih ⊢
      rw [ih]
      by_cases hmem : t ∈ rest.map Prod.fst
      · rw [if_pos hmem, if_pos (List.mem_cons.mpr (Or.inr hmem))]
      · rw [if_neg hmem, if_neg (by
          intro hc
          rcases List.mem_cons.mp hc with h1 | h1
          · exact hne2 h1
          · exact hmem h1)]
        simp

theorem addSeries_gKeys_nodup {g : List (String × List Series)} {t : String}
    {ss : List Series} (h : (gKeys g).Nodup) : (gKeys (addSeries g t ss)).Nodup := by
  rw [addSeries_gKeys]
  split
  · exact h
  · rename_i hmem
    simpa [List.nodup_append] using ⟨h, hmem⟩

theorem addSeries_lookupG_eq (g : List (String × List Series)) (t : String)
    (ss : List Series) :
    lookupG (addSeries g t ss) t = some ((lookupG g t).getD [] ++ ss) := by
  induction g with
  | nil => simp [addSeries, lookupG]
  | cons p rest ih =>
    simp only [addSeries]
    split
    · rename_i heq
      simp [lookupG, List.find?, heq]
    · rename_i hne
      simp only [lookupG, List.find?] at ih ⊢
      rw [show (decide (p.1 = t)) = false by simpa using hne]
      simpa using ih

theorem addSeries_lookupG_ne (g : List (String × List Series)) {t t' : String}
    (ss : List Series) (h : t' ≠ t) :
    lookupG (addSeries g t ss) t' = lookupG g t' := by
  induction g with
  | nil =>
    have hd : (decide (t = t')) = false := decide_eq_false (fun hh => h hh.symm)
    simp [addSeries, lookupG, List.find?, hd]
  | cons p rest ih =>
    simp only [addSeries]
    split
    · rename_i heq
      have hd : (decide (p.1 = t')) = false :=
        decide_eq_false (fun hh => h (hh ▸ heq))
      simp [lookupG, List.find?, hd]
    · rename_i hne
      by_cases hd : p.1 = t'
      · simp [lookupG, List.find?, hd]
      · have hd2 : (decide (p.1 = t')) = false := decide_eq_false hd
        simp only [lookupG, List.find?] at ih ⊢
        simp only [hd2]
        exact ih

theorem mem_insertSet {u : List String} {c c' : String} :
    c' ∈ insertSet u c ↔ c' ∈ u ∨ c' = c := by
  unfold insertSet
  split
  · rename_i h
    constructor
    · exact Or.inl
    · intro h1
      rcases h1 with h1 | h1
      · exact h1
      · rw [h1]; exact h
  · simp [List.mem_append]

theorem insertSet_nodup {u : List String} {c : String} (h : u.Nodup) :
    (insertSet u c).Nodup := by
  unfold insertSet
  split
  · exact h
  · rename_i hmem
    simpa [List.nodup_append] using ⟨h, hmem⟩

theorem insertSet_length_not_mem {u : List String} {c : String} (h : c ∉ u) :
    (insertSet u c).length = u.length + 1 := by
  unfold insertSet
  rw [if_neg h]
  simp

theorem byCode_some {l : List Series} {c : String} {s : Series}
    (h : byCode l c = some s) : s.code = c ∧ s ∈ l ∧ c ∈ l.map Series.code := by
  unfold byCode at h
  have h1 := List.find?_some h
  have h2 := List.mem_of_find?_eq_some h
  rw [List.mem_reverse] at h2
  have h3 : s.code = c := by simpa using h1
  exact ⟨h3, h2, h3 ▸ List.mem_map_of_mem Series.code h2⟩

/-- The grouping invariant: `used` is a duplicate-free subset of the input
code list, every code in `used` occurs exactly once across all groups,
codes outside `used` occur nowhere, the total series count equals
`used.length`, and group titles are duplicate-free. -/
def GInv (codes : List String) (st : GState) : Prop :=
  st.used.Nodup ∧
  (∀ c ∈ st.used, c ∈ codes) ∧
  totalLen st.groups = st.used.length ∧
  (∀ c, codeCount st.groups c = if c ∈ st.used then 1 else 0) ∧
  (gKeys st.groups).Nodup

theorem GInv_init (codes : List String) : GInv codes ⟨[], []⟩ := by
  refine ⟨List.nodup_nil, ?_, rfl, ?_, List.nodup_nil⟩
  · intro c hc
    cases hc
  · intro c
    simp [codeCount]

theorem GInv_add {codes : List String} {st : GState} {t : String} {s : Series}
    (hInv : GInv codes st) (hfresh : s.code ∉ st.used) (hcode : s.code ∈ codes) :
    GInv codes ⟨addSeries st.groups t [s], insertSet st.used s.code⟩ := by
  obtain ⟨hnd, hsub, hlen, hcnt, hknd⟩ := hInv
  refine ⟨insertSet_nodup hnd, ?_, ?_, ?_, addSeries_gKeys_nodup hknd⟩
  · intro c hc
    rcases mem_insertSet.mp hc with h | h
    · exact hsub c h
    · rw [h]; exact hcode
  · rw [addSeries_totalLen, insertSet_length_not_mem hfresh, hlen]
    simp
  · intro c
    rw [addSeries_codeCount, hcnt c]
    by_cases hcs : c = s.code
    · subst hcs
      rw [if_neg hfresh, if_pos (mem_insertSet.mpr (Or.inr rfl))]
      simp [List.countP_cons]
    · have : [s].countP (fun x => x.code = c) = 0 := by
        simp [List.countP_cons]
        intro h
        exact absurd h.symm hcs
      rw [this]
      by_cases hcu : c ∈ st.used
      · rw [if_pos hcu, if_pos (mem_insertSet.mpr (Or.inl hcu))]
      · rw [if_neg hcu, if_neg (fun hh => by
          rcases mem_insertSet.mp hh with h1 | h1
          · exact hcu h1
          · exact hcs h1)]

theorem place_used_mem {byc : String → Option Series} {guard : Bool} {st : GState}
    {ct : String × String} :
    ∀ c ∈ (place byc guard st ct).used, c ∈ st.used ∨ c = ct.1 := by
  unfold place
  split
  · intro c hc
    exact Or.inl hc
  · split
    · intro c hc
      exact Or.inl hc
    · intro c hc
      exact mem_insertSet.mp hc

theorem place_used_mono {byc : String → Option Series} {guard : Bool} {st : GState}
    {ct : String × String} :
    ∀ c ∈ st.used, c ∈ (place byc guard st ct).used := by
  unfold place
  split
  · intro c hc
    exact hc
  · split
    · intro c hc
      exact hc
    · intro c hc
      exact mem_insertSet.mpr (Or.inl hc)

theorem place_GInv_guard {l : List Series} {st : GState} {ct : String × String}
    (hInv : GInv (l.map Series.code) st) :
    GInv (l.map Series.code) (place (byCode l) true st ct) := by
  unfold place
  split
  · exact hInv
  · rename_i s hbyc
    split
    · exact hInv
    · rename_i hcond
      obtain ⟨hc, _, hinmap⟩ := byCode_some hbyc
      have hfresh : ct.1 ∉ st.used := fun hm => hcond ⟨rfl, hm⟩
      rw [← hc]
      exact GInv_add hInv (by rw [hc]; exact hfresh) (by rw [hc]; exact hinmap)

theorem place_GInv_free {l : List Series} {st : GState} {ct : String × String}
    (hInv : GInv (l.map Series.code) st) (hfresh : ct.1 ∉ st.used) :
    GInv (l.map Series.code) (place (byCode l) false st ct) := by
  unfold place
  split
  · exact hInv
  · rename_i s hbyc
    split
    · exact hInv
    · obtain ⟨hc, _, hinmap⟩ := byCode_some hbyc
      rw [← hc]
      exact GInv_add hInv (by rw [hc]; exact hfresh) (by rw [hc]; exact hinmap)

theorem foldl_place_guard {l : List Series} (tbl : List (String × String)) :
    ∀ st, GInv (l.map Series.code) st →
      GInv (l.map Series.code) (tbl.foldl (place (byCode l) true) st) ∧
      (∀ c ∈ (tbl.foldl (place (byCode l) true) st).used,
        c ∈ st.used ∨ c ∈ tbl.map Prod.fst) := by
  induction tbl with
  | nil =>
    intro st h
    exact ⟨h, fun c hc => Or.inl hc⟩
  | cons p rest ih =>
    intro st h
    simp only [List.foldl_cons]
    obtain ⟨h1, h2⟩ := ih (place (byCode l) true st p) (place_GInv_guard h)
    refine ⟨h1, ?_⟩
    intro c hc
    rcases h2 c hc with h3 | h3
    · rcases place_used_mem c h3 with h4 | h4
      · exact Or.inl h4
      · exact Or.inr (by simp [h4])
    · exact Or.inr (by simp [h3])

theorem foldl_place_free {l : List Series} (tbl : List (String × String)) :
    ∀ st, GInv (l.map Series.code) st →
      (tbl.map Prod.fst).Nodup → (∀ p ∈ tbl, p.1 ∉ st.used) →
      GInv (l.map Series.code) (tbl.foldl (place (byCode l) false) st) ∧
      (∀ c ∈ (tbl.foldl (place (byCode l) false) st).used,
        c ∈ st.used ∨ c ∈ tbl.map Prod.fst) := by
  induction tbl with
  | nil =>
    intro st h _ _
    exact ⟨h, fun c hc => Or.inl hc⟩
  | cons p rest ih =>
    intro st h hnd hfresh
    simp only [List.foldl_cons]
    have hInv1 := place_GInv_free h (hfresh p (List.mem_cons_self p rest))
    have hfresh1 : ∀ q ∈ rest, q.1 ∉ (place (byCode l) false st p).used := by
      intro q hq hmem
      rcases place_used_mem q.1 hmem with h1 | h1
      · exact hfresh q (List.mem_cons.mpr (Or.inr hq)) h1
      · have hqm : q.1 ∈ rest.map Prod.fst := List.mem_map_of_mem Prod.fst hq
        rw [h1] at hqm
        exact (List.nodup_cons.mp hnd).1 hqm
    obtain ⟨h1, h2⟩ := ih _ hInv1 (List.nodup_cons.mp hnd).2 hfresh1
    refine ⟨h1, ?_⟩
    intro c hc
    rcases h2 c hc with h3 | h3
    · rcases place_used_mem c h3 with h4 | h4
      · exact Or.inl h4
      · exact Or.inr (by simp [h4])
    · exact Or.inr (by simp [h3])

theorem addSeries_two (g : List (String × List Series)) (t : String) (a b : Series) :
    addSeries g t [a, b] = addSeries (addSeries g t [a]) t [b] := by
  induction g with
  | nil => simp [addSeries]
  | cons p rest ih =>
    simp only [addSeries]
    split
    · rename_i heq
      simp only [addSeries, if_pos heq]
      simp
    · rename_i hne
      simp only [addSeries, if_neg hne]
      rw [ih]

theorem bpStep_GInv (l : List Series) :
    GInv (l.map Series.code) (bpStep (byCode l) ⟨[], []⟩) ∧
    (∀ c ∈ (bpStep (byCode l) ⟨[], []⟩).used, c = "8480-6" ∨ c = "8462-4") := by
  unfold bpStep
  split
  · rename_i s d hs hd
    obtain ⟨hcs, _, hms⟩ := byCode_some hs
    obtain ⟨hcd, _, hmd⟩ := byCode_some hd
    constructor
    · rw [addSeries_two, show ("8480-6" : String) = s.code from hcs.symm,
        show ("8462-4" : String) = d.code from hcd.symm]
      have h1 : GInv (l.map Series.code)
          ⟨addSeries [] "Blood Pressure (mmHg)" [s], insertSet [] s.code⟩ :=
        GInv_add (GInv_init _) (by simp) (by rw [hcs]; exact hms)
      exact GInv_add h1 (by
        rw [hcd]
        intro hmem
        have hmem2 : ("8462-4" : String) ∈ insertSet ([] : List String) s.code := hmem
        rcases mem_insertSet.mp hmem2 with h2 | h2
        · cases h2
        · rw [hcs] at h2
          exact absurd h2 (by decide)) (by rw [hcd]; exact hmd)
    · intro c hc
      have hc2 : c ∈ insertSet (insertSet [] "8480-6") "8462-4" := hc
      rcases mem_insertSet.mp hc2 with h | h
      · rcases mem_insertSet.mp h with h1 | h1
        · cases h1
        · exact Or.inl h1
      · exact Or.inr h
  · rename_i s hs hd
    obtain ⟨hcs, _, hms⟩ := byCode_some hs
    constructor
    · rw [show ("8480-6" : String) = s.code from hcs.symm]
      exact GInv_add (GInv_init _) (by simp) (by rw [hcs]; exact hms)
    · intro c hc
      have hc2 : c ∈ insertSet [] "8480-6" := hc
      rcases mem_insertSet.mp hc2 with h | h
      · cases h
      · exact Or.inl h
  · rename_i d hs hd
    obtain ⟨hcd, _, hmd⟩ := byCode_some hd
    constructor
    · rw [show ("8462-4" : String) = d.code from hcd.symm]
      exact GInv_add (GInv_init _) (by simp) (by rw [hcd]; exact hmd)
    · intro c hc
      have hc2 : c ∈ insertSet [] "8462-4" := hc
      rcases mem_insertSet.mp hc2 with h | h
      · cases h
      · exact Or.inr h
  · exact ⟨GInv_init _, fun c hc => by cases hc⟩

theorem fallbackStep_GInv {codes : List String} {st : GState} {d : Series}
    (hInv : GInv codes st) (hd : d.code ∈ codes) : GInv codes (fallbackStep st d) := by
  unfold fallbackStep
  split
  · exact hInv
  · rename_i hfresh
    exact GInv_add hInv hfresh hd

theorem fallbackStep_used_mono {st : GState} {d : Series} :
    ∀ c ∈ st.used, c ∈ (fallbackStep st d).used := by
  unfold fallbackStep
  split
  · intro c hc
    exact hc
  · intro c hc
    exact mem_insertSet.mpr (Or.inl hc)

theorem fallbackStep_used_self {st : GState} {d : Series} :
    d.code ∈ (fallbackStep st d).used := by
  unfold fallbackStep
  split
  · assumption
  · exact mem_insertSet.mpr (Or.inr rfl)

theorem foldl_fallback_used_mono (rest : List Series) :
    ∀ (st : GState) (c : String), c ∈ st.used →
      c ∈ (rest.foldl fallbackStep st).used := by
  induction rest with
  | nil =>
    intro st c hc
    exact hc
  | cons d tail ih =>
    intro st c hc
    simp only [List.foldl_cons]
    exact ih _ c (fallbackStep_used_mono c hc)

theorem foldl_fallback {l : List Series} (rest : List Series) :
    ∀ st, GInv (l.map Series.code) st →
      (∀ d ∈ rest, d.code ∈ l.map Series.code) →
      GInv (l.map Series.code) (rest.foldl fallbackStep st) ∧
      (∀ d ∈ rest, d.code ∈ (rest.foldl fallbackStep st).used) := by
  induction rest with
  | nil =>
    intro st h _
    exact ⟨h, fun d hd => by cases hd⟩
  | cons d tail ih =>
    intro st h hcodes
    simp only [List.foldl_cons]
    obtain ⟨h1, h2⟩ := ih (fallbackStep st d)
      (fallbackStep_GInv h (hcodes d (List.mem_cons_self d tail)))
      (fun e he => hcodes e (List.mem_cons.mpr (Or.inr he)))
    refine ⟨h1, ?_⟩
    intro e he
    rcases List.mem_cons.mp he with h3 | h3
    · subst h3
      exact foldl_fallback_used_mono tail _ e.code fallbackStep_used_self
    · exact h2 e h3

/-- Concrete bound for the codes claimable by steps 1-3. -/
def bound3 : List String :=
  "8480-6" :: "8462-4" :: (vit_titles ++ lipid_titles).map Prod.fst

theorem gcStep3_GInv (l : List Series) :
    GInv (l.map Series.code) (gcStep3 l) ∧ ∀ c ∈ (gcStep3 l).used, c ∈ bound3 := by
  obtain ⟨hbp, hbpb⟩ := bpStep_GInv l
  have hvitfresh : ∀ p ∈ vit_titles, p.1 ∉ (bpStep (byCode l) ⟨[], []⟩).used := by
    intro p hp hmem
    have hne : ∀ q ∈ vit_titles, ¬(q.1 = "8480-6" ∨ q.1 = "8462-4") := by decide
    exact hne p hp (hbpb p.1 hmem)
  obtain ⟨h2, h2b⟩ := foldl_place_free vit_titles _ hbp (by decide) hvitfresh
  have hlipfresh : ∀ p ∈ lipid_titles,
      p.1 ∉ (vit_titles.foldl (place (byCode l) false)
        (bpStep (byCode l) ⟨[], []⟩)).used := by
    intro p hp hmem
    have hne : ∀ q ∈ lipid_titles,
        ¬(q.1 = "8480-6" ∨ q.1 = "8462-4" ∨ q.1 ∈ vit_titles.map Prod.fst) := by decide
    rcases h2b p.1 hmem with h3 | h3
    · rcases hbpb p.1 h3 with h4 | h4
      · exact hne p hp (Or.inl h4)
      · exact hne p hp (Or.inr (Or.inl h4))
    · exact hne p hp (Or.inr (Or.inr h3))
  obtain ⟨h3, h3b⟩ := foldl_place_free lipid_titles _ h2 (by decide) hlipfresh
  refine ⟨h3, ?_⟩
  intro c hc
  rcases h3b c hc with h4 | h4
  · rcases h2b c h4 with h5 | h5
    · rcases hbpb c h5 with h6 | h6
      · simp [bound3, h6]
      · simp [bound3, h6]
    · apply List.mem_cons.mpr
      right
      apply List.mem_cons.mpr
      right
      rw [List.map_append]
      exact List.mem_append.mpr (Or.inl h5)
  · apply List.mem_cons.mpr
    right
    apply List.mem_cons.mpr
    right
    rw [List.map_append]
    exact List.mem_append.mpr (Or.inr h4)

theorem gcStep7_GInv (l : List Series) :
    GInv (l.map Series.code) (gcStep7 l) := by
  obtain ⟨h3, h3b⟩ := gcStep3_GInv l
  obtain ⟨h4, h4b⟩ := foldl_place_guard bmp_titles _ h3
  have h5 : GInv (l.map Series.code)
      (place (byCode l) true (bmp_titles.foldl (place (byCode l) true) (gcStep3 l))
        ("38483-4", "Creatinine (mg/dL)")) := place_GInv_guard h4
  have hfresh : ("33914-3", "eGFR (mL/min/1.73m²)").1 ∉
      (place (byCode l) true (bmp_titles.foldl (place (byCode l) true) (gcStep3 l))
        ("38483-4", "Creatinine (mg/dL)")).used := by
    intro hmem
    rcases place_used_mem _ hmem with h6 | h6
    · rcases h4b _ h6 with h7 | h7
      · rcases h3b _ h7 with h8
        exact (show ("33914-3" : String) ∉ bound3 by decide) h8
      · exact (show ("33914-3" : String) ∉ bmp_titles.map Prod.fst by decide) h7
    · exact absurd h6 (by decide)
  have h6 := place_GInv_free h5 hfresh
  exact (foldl_place_guard liver_titles _ h6).1

theorem gcStep8_GInv (l : List Series) (inc : Bool) :
    GInv (l.map Series.code) (gcStep8 l inc) := by
  unfold gcStep8
  split
  · exact (foldl_place_guard survey_titles _ (gcStep7_GInv l)).1
  · exact gcStep7_GInv l

/-- C1 — Grouping totality: for every input list and flag value, the
groups returned by `group_chartables` contain exactly one series per
distinct input code, and the total number of series across groups equals
the number of distinct input codes. -/
theorem grouping_totality (l : List Series) (inc : Bool) :
    totalLen (group_chartables l inc) = ((l.map Series.code).dedup).length ∧
    ∀ c ∈ l.map Series.code, codeCount (group_chartables l inc) c = 1 := by
  obtain ⟨hInv, hall⟩ := foldl_fallback (l := l) l (gcStep8 l inc) (gcStep8_GInv l inc)
    (fun d hd => List.mem_map_of_mem Series.code hd)
  obtain ⟨hnd, hsub, hlen, hcnt, hknd⟩ := hInv
  have hmemiff : ∀ c, c ∈ (l.foldl fallbackStep (gcStep8 l inc)).used ↔
      c ∈ l.map Series.code := by
    intro c
    constructor
    · exact hsub c
    · intro hc
      rcases List.mem_map.mp hc with ⟨d, hd, rfl⟩
      exact hall d hd
  constructor
  · have heq : group_chartables l inc = (l.foldl fallbackStep (gcStep8 l inc)).groups := rfl
    rw [heq, hlen]
    have hperm : List.Perm (l.foldl fallbackStep (gcStep8 l inc)).used
        ((l.map Series.code).dedup) := by
      rw [List.perm_ext_iff_of_nodup hnd (List.nodup_dedup _)]
      intro a
      rw [List.mem_dedup]
      exact hmemiff a
    exact hperm.length_eq
  · intro c hc
    have heq : group_chartables l inc = (l.foldl fallbackStep (gcStep8 l inc)).groups := rfl
    rw [heq, hcnt c, if_pos ((hmemiff c).mpr hc)]

/-- Witness for `grouping_totality` (the quantified per-code part) at a
concrete input. -/
theorem grouping_totality_witness :
    codeCount (group_chartables [⟨"8867-4", "HR", ["/min"], 5, 30⟩] false) "8867-4" = 1 :=
  (grouping_totality [⟨"8867-4", "HR", ["/min"], 5, 30⟩] false).2 "8867-4" (by decide)

/-! ### C4 — survey codes are not excluded when `include_surveys` is false -/

/-- A chartable series whose code `72514-3` (pain score) is in the
source's `SURVEYS` set. -/
def surveySeriesEx : Series :=
  ⟨"72514-3", "Pain severity", ["score"], 6, 30⟩

/-- C4 evaluation — with `include_surveys = false` a survey code is NOT
excluded from the result: step 7 skips it, but the step-8 fallback places
it in its own label-titled group.  (The `SURVEYS` constant is never
consulted by `group_chartables`.) -/
theorem survey_not_excluded :
    "72514-3" ∈ SURVEYS ∧
    group_chartables [surveySeriesEx] false =
      [("Pain severity (score)", [surveySeriesEx])] ∧
    codeCount (group_chartables [surveySeriesEx] false) "72514-3" = 1 := by
  refine ⟨by decide, by decide, by decide⟩

/-! ### C6 — blood-pressure grouping -/

theorem place_lookupG_ne {byc : String → Option Series} {guard : Bool}
    {st : GState} {ct : String × String} {t : String} (h : ct.2 ≠ t) :
    lookupG (place byc guard st ct).groups t = lookupG st.groups t := by
  unfold place
  split
  · rfl
  · split
    · rfl
    · exact addSeries_lookupG_ne _ _ (fun hh => h hh.symm)

theorem foldl_place_lookupG {l : List Series} {guard : Bool}
    (tbl : List (String × String)) {t : String} (h : ∀ p ∈ tbl, p.2 ≠ t) :
    ∀ st, lookupG ((tbl.foldl (place (byCode l) guard) st)).groups t =
      lookupG st.groups t := by
  induction tbl with
  | nil =>
    intro st
    rfl
  | cons p rest ih =>
    intro st
    simp only [List.foldl_cons]
    rw [ih (fun q hq => h q (List.mem_cons.mpr (Or.inr hq))) _,
      place_lookupG_ne (h p (List.mem_cons_self p rest))]

theorem fallbackStep_lookupG_front {st : GState} {d : Series} {t : String}
    {pre : List Series} (h : ∃ r, lookupG st.groups t = some (pre ++ r)) :
    ∃ r, lookupG (fallbackStep st d).groups t = some (pre ++ r) := by
  unfold fallbackStep
  split
  · exact h
  · by_cases hT : fallbackTitle d = t
    · subst hT
      rcases h with ⟨r, hr⟩
      refine ⟨r ++ [d], ?_⟩
      rw [addSeries_lookupG_eq, hr]
      simp
    · rcases h with ⟨r, hr⟩
      exact ⟨r, by rw [addSeries_lookupG_ne _ _ (fun hh => hT hh.symm)]; exact hr⟩

theorem foldl_fallback_lookupG_front (rest : List Series) {t : String}
    {pre : List Series} :
    ∀ st, (∃ r, lookupG st.groups t = some (pre ++ r)) →
      ∃ r, lookupG ((rest.foldl fallbackStep st)).groups t = some (pre ++ r) := by
  induction rest with
  | nil =>
    intro st h
    exact h
  | cons d tail ih =>
    intro st h
    simp only [List.foldl_cons]
    exact ih _ (fallbackStep_lookupG_front h)

theorem fallbackStep_lookupG_nocollision {st : GState} {d : Series} {t : String}
    (h : fallbackTitle d ≠ t) :
    lookupG (fallbackStep st d).groups t = lookupG st.groups t := by
  unfold fallbackStep
  split
  · rfl
  · exact addSeries_lookupG_ne _ _ (fun hh => h hh.symm)

theorem foldl_fallback_lookupG_nocollision (rest : List Series) {t : String}
    (h : ∀ d ∈ rest, fallbackTitle d ≠ t) :
    ∀ st, lookupG ((rest.foldl fallbackStep st)).groups t = lookupG st.groups t := by
  induction rest with
  | nil =>
    intro st
    rfl
  | cons d tail ih =>
    intro st
    simp only [List.foldl_cons]
    rw [ih (fun q hq => h q (List.mem_cons.mpr (Or.inr hq))) _,
      fallbackStep_lookupG_nocollision (h d (List.mem_cons_self d tail))]

theorem gcStep8_lookup_pres (l : List Series) (inc : Bool) {t : String}
    (hv : ∀ p ∈ vit_titles, p.2 ≠ t) (hl : ∀ p ∈ lipid_titles, p.2 ≠ t)
    (hb : ∀ p ∈ bmp_titles, p.2 ≠ t) (hliv : ∀ p ∈ liver_titles, p.2 ≠ t)
    (hsv : ∀ p ∈ survey_titles, p.2 ≠ t)
    (hcr : ("Creatinine (mg/dL)" : String) ≠ t)
    (heg : ("eGFR (mL/min/1.73m²)" : String) ≠ t) :
    lookupG (gcStep8 l inc).groups t =
      lookupG (bpStep (byCode l) ⟨[], []⟩).groups t := by
  unfold gcStep8 gcStep7 gcStep3
  split
  · rw [foldl_place_lookupG survey_titles hsv _,
      foldl_place_lookupG liver_titles hliv _,
      place_lookupG_ne heg, place_lookupG_ne hcr,
      foldl_place_lookupG bmp_titles hb _,
      foldl_place_lookupG lipid_titles hl _,
      foldl_place_lookupG vit_titles hv _]
  · rw [foldl_place_lookupG liver_titles hliv _,
      place_lookupG_ne heg, place_lookupG_ne hcr,
      foldl_place_lookupG bmp_titles hb _,
      foldl_place_lookupG lipid_titles hl _,
      foldl_place_lookupG vit_titles hv _]

theorem bpStep_lookup_both {l : List Series} {s d : Series}
    (hs : byCode l "8480-6" = some s) (hd : byCode l "8462-4" = some d) :
    lookupG (bpStep (byCode l) ⟨[], []⟩).groups "Blood Pressure (mmHg)" =
      some [s, d] := by
  unfold bpStep
  rw [hs, hd]
  simp [lookupG, addSeries, List.find?]

theorem bpStep_lookup_sys {l : List Series} {s : Series}
    (hs : byCode l "8480-6" = some s) (hd : byCode l "8462-4" = none) :
    lookupG (bpStep (byCode l) ⟨[], []⟩).groups "BP (Systolic)" = some [s] := by
  unfold bpStep
  rw [hs, hd]
  simp [lookupG, addSeries, List.find?]

theorem bpStep_lookup_dia {l : List Series} {d : Series}
    (hs : byCode l "8480-6" = none) (hd : byCode l "8462-4" = some d) :
    lookupG (bpStep (byCode l) ⟨[], []⟩).groups "BP (Diastolic)" = some [d] := by
  unfold bpStep
  rw [hs, hd]
  simp [lookupG, addSeries, List.find?]

/-- A third series whose fallback title (label plus primary unit) collides
with the blood-pressure group title. -/
def bpRogue : Series :=
  ⟨"9999-9", "Blood Pressure", ["mmHg"], 5, 30⟩

/-- Input with both BP codes plus the colliding rogue series. -/
def bpCexInput : List Series :=
  [⟨"8480-6", "SBP", ["mmHg"], 6, 40⟩, ⟨"8462-4", "DBP", ["mmHg"], 6, 40⟩, bpRogue]

/-- C6 counterexample — with both BP codes present, the group titled
"Blood Pressure (mmHg)" is NOT guaranteed to contain exactly the two BP
series: a third series whose fallback title collides is appended to it by
step 8, so the claim as stated is false. -/
theorem bp_grouping_counterexample :
    lookupG (group_chartables bpCexInput false) "Blood Pressure (mmHg)" =
      some [⟨"8480-6", "SBP", ["mmHg"], 6, 40⟩, ⟨"8462-4", "DBP", ["mmHg"], 6, 40⟩,
        bpRogue] := by
  decide

/-- C6 amended — when both the systolic (`8480-6`) and diastolic
(`8462-4`) series are present, there is exactly one group titled
"Blood Pressure (mmHg)" (group titles are duplicate-free); its list
begins with exactly `[systolic, diastolic]` in that order; neither BP code
occurs anywhere else (each occurs exactly once across all groups); and
when no input series has a colliding fallback title the group is exactly
the two BP series.  When only one of the two is present, it is the first
element of its dedicated "BP (Systolic)" / "BP (Diastolic)" group (alone,
barring the same fallback-title collision). -/
theorem bp_grouping_amended :
    (∀ (l : List Series) (inc : Bool) (s d : Series),
      byCode l "8480-6" = some s → byCode l "8462-4" = some d →
      (gKeys (group_chartables l inc)).Nodup ∧
      (∃ r, lookupG (group_chartables l inc) "Blood Pressure (mmHg)" =
        some ([s, d] ++ r)) ∧
      codeCount (group_chartables l inc) "8480-6" = 1 ∧
      codeCount (group_chartables l inc) "8462-4" = 1 ∧
      ((∀ e ∈ l, fallbackTitle e ≠ "Blood Pressure (mmHg)") →
        lookupG (group_chartables l inc) "Blood Pressure (mmHg)" = some [s, d])) ∧
    (∀ (l : List Series) (inc : Bool) (s : Series),
      byCode l "8480-6" = some s → byCode l "8462-4" = none →
      (∃ r, lookupG (group_chartables l inc) "BP (Systolic)" = some (s :: r)) ∧
      ((∀ e ∈ l, fallbackTitle e ≠ "BP (Systolic)") →
        lookupG (group_chartables l inc) "BP (Systolic)" = some [s])) ∧
    (∀ (l : List Series) (inc : Bool) (d : Series),
      byCode l "8462-4" = some d → byCode l "8480-6" = none →
      (∃ r, lookupG (group_chartables l inc) "BP (Diastolic)" = some (d :: r)) ∧
      ((∀ e ∈ l, fallbackTitle e ≠ "BP (Diastolic)") →
        lookupG (group_chartables l inc) "BP (Diastolic)" = some [d])) := by
  refine ⟨?_, ?_, ?_⟩
  · intro l inc s d hs hd
    have hstage : lookupG (gcStep8 l inc).groups "Blood Pressure (mmHg)" =
        some [s, d] := by
      rw [gcStep8_lookup_pres l inc (by decide) (by decide) (by decide) (by decide)
        (by decide) (by decide) (by decide)]
      exact bpStep_lookup_both hs hd
    obtain ⟨⟨hnd, hsub, hlen, hcnt, hknd⟩, hall⟩ :=
      foldl_fallback (l := l) l (gcStep8 l inc) (gcStep8_GInv l inc)
        (fun e he => List.mem_map_of_mem Series.code he)
    have hused : ∀ c ∈ l.map Series.code,
        c ∈ (l.foldl fallbackStep (gcStep8 l inc)).used := by
      intro c hc
      rcases List.mem_map.mp hc with ⟨e, he, rfl⟩
      exact hall e he
    have heq : group_chartables l inc =
        (l.foldl fallbackStep (gcStep8 l inc)).groups := rfl
    refine ⟨by rw [heq]; exact hknd, ?_, ?_, ?_, ?_⟩
    · rw [heq]
      exact foldl_fallback_lookupG_front l _ ⟨[], by simpa using hstage⟩
    · rw [heq, hcnt, if_pos (hused _ (byCode_some hs).2.2)]
    · rw [heq, hcnt, if_pos (hused _ (byCode_some hd).2.2)]
    · intro hnocol
      rw [heq, foldl_fallback_lookupG_nocollision l hnocol _]
      exact hstage
  · intro l inc s hs hd
    have hstage : lookupG (gcStep8 l inc).groups "BP (Systolic)" = some [s] := by
      rw [gcStep8_lookup_pres l inc (by decide) (by decide) (by decide) (by decide)
        (by decide) (by decide) (by decide)]
      exact bpStep_lookup_sys hs hd
    have heq : group_chartables l inc =
        (l.foldl fallbackStep (gcStep8 l inc)).groups := rfl
    constructor
    · rw [heq]
      exact foldl_fallback_lookupG_front l _
        (show ∃ r, lookupG (gcStep8 l inc).groups "BP (Systolic)" = some ([s] ++ r) from
          ⟨[], by simpa using hstage⟩)
    · intro hnocol
      rw [heq, foldl_fallback_lookupG_nocollision l hnocol _]
      exact hstage
  · intro l inc d hd hs
    have hstage : lookupG (gcStep8 l inc).groups "BP (Diastolic)" = some [d] := by
      rw [gcStep8_lookup_pres l inc (by decide) (by decide) (by decide) (by decide)
        (by decide) (by decide) (by decide)]
      exact bpStep_lookup_dia hs hd
    have heq : group_chartables l inc =
        (l.foldl fallbackStep (gcStep8 l inc)).groups := rfl
    constructor
    · rw [heq]
      exact foldl_fallback_lookupG_front l _
        (show ∃ r, lookupG (gcStep8 l inc).groups "BP (Diastolic)" = some ([d] ++ r) from
          ⟨[], by simpa using hstage⟩)
    · intro hnocol
      rw [heq, foldl_fallback_lookupG_nocollision l hnocol _]
      exact hstage

/-- Witness for `bp_grouping_amended` at a concrete collision-free input. -/
theorem bp_grouping_amended_witness :
    lookupG (group_chartables
        [⟨"8480-6", "SBP", ["mmHg"], 6, 40⟩, ⟨"8462-4", "DBP", ["mmHg"], 6, 40⟩]
        false) "Blood Pressure (mmHg)" =
      some [⟨"8480-6", "SBP", ["mmHg"], 6, 40⟩, ⟨"8462-4", "DBP", ["mmHg"], 6, 40⟩] :=
  (bp_grouping_amended.1
    [⟨"8480-6", "SBP", ["mmHg"], 6, 40⟩, ⟨"8462-4", "DBP", ["mmHg"], 6, 40⟩]
    false _ _ (by decide) (by decide)).2.2.2.2 (by decide)

/-! ### C2 — malformed-record skip policy -/

/-- The record carries no usable numeric `value` key, neither at top level
nor in any component. -/
def NoNumericValue (o : Obs) : Prop :=
  o.valueQuantity.bind Quantity.value = none ∧
  ∀ comp ∈ o.component, comp.valueQuantity.bind Quantity.value = none

theorem aggVal_no_value (st : AggState) (dt : Option Int) (vqOpt : Option Quantity)
    (ccList : List Coding) (h : vqOpt.bind Quantity.value = none) :
    aggVal st dt vqOpt ccList = st := by
  unfold aggVal
  cases vqOpt with
  | none => rfl
  | some vq =>
    have hv : vq.value = none := by simpa using h
    simp [hv]

theorem aggVal_dt_none (st : AggState) (vqOpt : Option Quantity)
    (ccList : List Coding) : aggVal st none vqOpt ccList = st := by
  unfold aggVal
  cases vqOpt with
  | none => rfl
  | some vq =>
    cases hv : vq.value with
    | none => simp [hv]
    | some v =>
      cases hc : truthyStr (firstCoding ccList).code <;> simp [hv, hc]

theorem aggObs_dt_none {st : AggState} {o : Obs} (h : parse_dt o = none) :
    aggObs st o = st := by
  unfold aggObs
  rw [h, aggVal_dt_none]
  have hfold : ∀ (comps : List Component) (st1 : AggState),
      comps.foldl (fun s comp => aggVal s none comp.valueQuantity comp.coding) st1 =
        st1 := by
    intro comps
    induction comps with
    | nil =>
      intro st1
      rfl
    | cons c rest ih =>
      intro st1
      simp only [List.foldl_cons]
      rw [aggVal_dt_none]
      exact ih st1
  exact hfold o.component st

theorem aggObs_no_value {st : AggState} {o : Obs} (h : NoNumericValue o) :
    aggObs st o = st := by
  unfold aggObs
  rw [aggVal_no_value _ _ _ _ h.1]
  have hfold : ∀ (comps : List Component) (st1 : AggState),
      (∀ comp ∈ comps, comp.valueQuantity.bind Quantity.value = none) →
      comps.foldl (fun s comp => aggVal s (parse_dt o) comp.valueQuantity comp.coding)
        st1 = st1 := by
    intro comps
    induction comps with
    | nil =>
      intro st1 _
      rfl
    | cons c rest ih =>
      intro st1 hc
      simp only [List.foldl_cons,
        aggVal_no_value _ _ _ _ (hc c (List.mem_cons_self c rest))]
      exact ih st1 (fun e he => hc e (List.mem_cons.mpr (Or.inr he)))
  exact hfold o.component st h.2

theorem ftsTop_no_value (codes : List String) (st : FtsState) (dt : Int) (o : Obs)
    (h : o.valueQuantity.bind Quantity.value = none) :
    ftsTop codes st dt o = .ok st := by
  unfold ftsTop
  cases hq : o.valueQuantity with
  | none => rfl
  | some vq =>
    have hv : vq.value = none := by
      rw [hq] at h
      simpa using h
    simp [hv]

theorem ftsComps_no_values (codes : List String) (dt : Int) :
    ∀ (comps : List Component) (st : FtsState),
      (∀ comp ∈ comps, comp.valueQuantity.bind Quantity.value = none) →
      ftsComps codes dt comps st = .ok st := by
  intro comps
  induction comps with
  | nil =>
    intro st _
    rfl
  | cons c rest ih =>
    intro st hc
    have hv : c.valueQuantity.bind Quantity.value = none :=
      hc c (List.mem_cons_self c rest)
    unfold ftsComps
    cases hq : c.valueQuantity with
    | none => exact ih st (fun e he => hc e (List.mem_cons.mpr (Or.inr he)))
    | some vq =>
      have hv2 : vq.value = none := by
        rw [hq] at hv
        simpa using hv
      simp only [hv2]
      exact ih st (fun e he => hc e (List.mem_cons.mpr (Or.inr he)))

theorem ftsEntry_dt_none {codes : List String} {st : FtsState} {o : Obs}
    (h : parse_when o = none) : ftsEntry codes st o = .ok st := by
  unfold ftsEntry
  rw [h]

theorem ftsEntry_no_value {codes : List String} {st : FtsState} {o : Obs}
    (h : NoNumericValue o) : ftsEntry codes st o = .ok st := by
  unfold ftsEntry
  cases hw : parse_when o with
  | none => rfl
  | some dt =>
    simp only [ftsTop_no_value codes st dt o h.1]
    exact ftsComps_no_values codes dt o.component st h.2

/-- C2 amended — a record with no usable timestamp (both fields absent,
falsy, or unparsable), or with no `value` key anywhere, contributes zero
temporal points and is skipped without error, both in the classifier
aggregation (`aggObs`) and in the per-entry fetch (`ftsEntry`).  The
non-numeric-value half of the original claim is refuted separately: see
the counterexample. -/
theorem malformed_skip_amended (ast : AggState) (fs : FtsState)
    (codes : List String) (o1 o2 : Obs)
    (h1 : parse_dt o1 = none) (h2 : NoNumericValue o2) :
    aggObs ast o1 = ast ∧ aggObs ast o2 = ast ∧
    ftsEntry codes fs o1 = .ok fs ∧ ftsEntry codes fs o2 = .ok fs :=
  ⟨aggObs_dt_none h1, aggObs_no_value h2, ftsEntry_dt_none h1, ftsEntry_no_value h2⟩

/-- An Observation with a usable timestamp whose `value` is a JSON string
that Python `float` cannot convert (e.g. `"abc"`). -/
def badValueObs : Obs :=
  ⟨some ⟨false, some 1577836800⟩, none, [⟨some "c", none⟩],
   some ⟨some (.str none), none, none⟩, [], []⟩

/-- Points aggregated for a code. -/
def pointsFor (st : AggState) (c : String) : List (Int × PyVal) :=
  alGet st.points c []

/-- C2 counterexample — a record whose `value` is a non-numeric string is
NOT skipped: the classifier aggregation counts it as a temporal point
(only key presence is checked), and `fetch_timeseries_for_codes` raises
(`float` fails), aborting the batch. -/
theorem malformed_counterexample :
    (pointsFor (aggObs initAgg badValueObs) "c").length = 1 ∧
    fetch_timeseries_for_codes [[badValueObs]] ["c"] = .error floatError := by
  refine ⟨by decide, ?_⟩
  rfl

/-- Witness for `malformed_skip_amended` at concrete skipped records. -/
theorem malformed_skip_amended_witness :
    aggObs initAgg
        ⟨none, none, [⟨some "c", none⟩], some ⟨some (.num 1), none, none⟩, [], []⟩ =
      initAgg ∧
    aggObs initAgg
        ⟨some ⟨false, some 0⟩, none, [⟨some "c", none⟩], some ⟨none, none, none⟩,
          [⟨[], some ⟨none, none, none⟩⟩], []⟩ = initAgg ∧
    ftsEntry ["c"] []
        ⟨none, none, [⟨some "c", none⟩], some ⟨some (.num 1), none, none⟩, [], []⟩ =
      .ok [] ∧
    ftsEntry ["c"] []
        ⟨some ⟨false, some 0⟩, none, [⟨some "c", none⟩], some ⟨none, none, none⟩,
          [⟨[], some ⟨none, none, none⟩⟩], []⟩ = .ok [] :=
  malformed_skip_amended initAgg [] ["c"] _ _ (by decide) ⟨by decide, by decide⟩

/-! ### C3 — screener truncation policy -/

/-- An Observation carrying a single category token. -/
def catObs (c : String) : Obs :=
  ⟨none, none, [], none, [], [⟨[⟨some c, none⟩], none⟩]⟩

/-- Count lookup (`counts.get(t)`). -/
def lookupCount (counts : List (String × Nat)) (t : String) : Option Nat :=
  match counts.find? (fun p => p.1 = t) with
  | some p => some p.2
  | none => none

/-- C3 counterexample — with `sample = 1` and a single already-fetched
page of two entries, `get_observation_counts_for_patient` `break`s
mid-page after the first entry: the second entry of the page in hand is
left unprocessed (its category is absent from the result), contradicting
"it never leaves entries of an already-fetched page unprocessed". -/
theorem screener_counterexample :
    get_observation_counts_for_patient [[catObs "a", catObs "b"]] 1 = [("a", 1)] ∧
    lookupCount (get_observation_counts_for_patient [[catObs "a", catObs "b"]] 1)
      "b" = none ∧
    lookupCount (countsOfEntries [catObs "a", catObs "b"]) "b" = some 1 := by
  refine ⟨by decide, by decide, by decide⟩

theorem obsLoop_spec (count : Nat) :
    ∀ (pages : List (List Obs)) (out : List Obs),
      ∃ k, k ≤ pages.length ∧
        obsLoop count pages out = out ++ (pages.take k).flatten ∧
        (k = pages.length ∨ count ≤ out.length + ((pages.take k).flatten).length) ∧
        (∀ j, 0 < j → j < k →
          out.length + ((pages.take j).flatten).length < count) := by
  intro pages
  induction pages with
  | nil =>
    intro out
    refine ⟨0, Nat.le_refl 0, by simp [obsLoop], Or.inl rfl, ?_⟩
    intro j hj0 hjk
    omega
  | cons p rest ih =>
    intro out
    by_cases hstop : rest = [] ∨ count ≤ (out ++ p).length
    · refine ⟨1, by simp, ?_, ?_, ?_⟩
      · unfold obsLoop
        rw [if_pos hstop]
        simp
      · rcases hstop with h | h
        · subst h
          exact Or.inl rfl
        · refine Or.inr ?_
          simp only [List.take_succ_cons, List.take_zero, List.flatten_cons,
            List.flatten_nil, List.append_nil, List.length_append] at *
          omega
      · intro j hj0 hjk
        omega
    · push_neg at hstop
      obtain ⟨hne, hlt⟩ := hstop
      obtain ⟨k, hk, heq, hor, hj⟩ := ih (out ++ p)
      refine ⟨k + 1, by simpa using Nat.succ_le_succ hk, ?_, ?_, ?_⟩
      · unfold obsLoop
        rw [if_neg (by
          push_neg
          exact ⟨hne, hlt⟩)]
        rw [heq]
        simp
      · rcases hor with h | h
        · exact Or.inl (by simp [h])
        · refine Or.inr ?_
          simp only [List.take_succ_cons, List.flatten_cons, List.length_append] at *
          omega
      · intro j hj0 hjk
        cases j with
        | zero => omega
        | succ j1 =>
          simp only [List.take_succ_cons, List.flatten_cons, List.length_append]
          cases Nat.eq_zero_or_pos j1 with
          | inl hz =>
            subst hz
            simp only [List.take_zero, List.flatten_nil, List.length_nil]
            simp only [List.length_append] at hlt
            omega
          | inr hpos =>
            have := hj j1 hpos (by omega)
            simp only [List.length_append] at this
            omega

theorem procPage_spec (sample : Nat) :
    ∀ (entries : List Obs) (counts : List (String × Nat)) (seen : Nat),
      seen < sample →
      procPage sample entries counts seen =
        (List.foldl bumpToks counts (entries.take (sample - seen)),
          seen + min entries.length (sample - seen)) := by
  intro entries
  induction entries with
  | nil =>
    intro counts seen h
    simp [procPage]
  | cons o rest ih =>
    intro counts seen h
    unfold procPage
    by_cases hstop : sample ≤ seen + 1
    · rw [if_pos hstop]
      have h1 : sample - seen = 1 := by omega
      rw [h1]
      simp only [List.take_succ_cons, List.take_zero, List.foldl_cons,
        List.foldl_nil, List.length_cons, Prod.mk.injEq]
      refine ⟨trivial, by omega⟩
    · rw [if_neg hstop]
      rw [ih (bumpToks counts o) (seen + 1) (by omega)]
      have h3 : sample - seen = (sample - (seen + 1)) + 1 := by omega
      rw [h3, List.take_succ_cons]
      simp only [List.foldl_cons, List.length_cons, Prod.mk.injEq]
      refine ⟨trivial, by omega⟩

theorem countsLoop_spec (sample : Nat) :
    ∀ (pages : List (List Obs)) (counts : List (String × Nat)) (seen : Nat),
      seen < sample →
      countsLoop sample pages counts seen =
        List.foldl bumpToks counts (pages.flatten.take (sample - seen)) := by
  intro pages
  induction pages with
  | nil =>
    intro counts seen h
    simp [countsLoop]
  | cons p rest ih =>
    intro counts seen h
    unfold countsLoop
    rw [procPage_spec sample p counts seen h]
    by_cases hstop : sample ≤ seen + min p.length (sample - seen)
    · rw [if_pos (by simpa using hstop)]
      have hp : sample - seen ≤ p.length := by omega
      simp only [List.flatten_cons]
      rw [List.take_append_of_le_length hp]
    · rw [if_neg (by simpa using hstop)]
      have hplen : p.length ≤ sample - seen := by omega
      have hmin : min p.length (sample - seen) = p.length := by omega
      cases rest with
      | nil =>
        simp only [List.flatten_cons, List.flatten_nil, List.append_nil]
      | cons q qs =>
        rw [hmin]
        rw [ih (List.foldl bumpToks counts (p.take (sample - seen)))
          (seen + p.length) (by omega)]
        rw [List.take_of_length_le hplen]
        have hsplit : sample - seen = p.length + (sample - (seen + p.length)) := by
          omega
        simp only [List.flatten_cons]
        rw [hsplit, List.take_append, List.foldl_append]

/-- C3 amended — `get_observations_for_patient` returns a concatenation of
whole pages, stopping after the first page that reaches `count` (earlier
page boundaries were all below `count`, and no further page is fetched);
`get_observation_counts_for_patient`, by contrast, stops immediately once
`sample` entries have been processed — possibly mid-page, leaving the
remainder of the already-fetched page uncounted: its result equals the
tally over exactly the first `sample` entries of the served stream. -/
theorem screener_truncation_amended :
    (∀ (pages : List (List Obs)) (count : Nat),
      ∃ k, k ≤ pages.length ∧
        get_observations_for_patient pages count = (pages.take k).flatten ∧
        (k = pages.length ∨ count ≤ ((pages.take k).flatten).length) ∧
        (∀ j, 0 < j → j < k → ((pages.take j).flatten).length < count)) ∧
    (∀ (pages : List (List Obs)) (sample : Nat), 1 ≤ sample →
      get_observation_counts_for_patient pages sample =
        countsOfEntries (pages.flatten.take sample)) := by
  constructor
  · intro pages count
    obtain ⟨k, hk, heq, hor, hj⟩ := obsLoop_spec count pages []
    refine ⟨k, hk, by simpa using heq, ?_, ?_⟩
    · simpa using hor
    · intro j hj0 hjk
      simpa using hj j hj0 hjk
  · intro pages sample hs
    unfold get_observation_counts_for_patient countsOfEntries
    rw [countsLoop_spec sample pages [] 0 (by omega)]
    norm_num

/-- Witness for `screener_truncation_amended` at a concrete stream. -/
theorem screener_truncation_amended_witness :
    get_observation_counts_for_patient [[catObs "a", catObs "b"]] 1 =
      countsOfEntries (([[catObs "a", catObs "b"]].flatten).take 1) :=
  screener_truncation_amended.2 [[catObs "a", catObs "b"]] 1 (by decide)
